import Mathlib

/-!
# LightEdit: editor registry, build invoker and directory scanner

A shallow embedding of `src/LightEdit/src/main.cpp`.  The application state
(`AppState`) is passed explicitly.  Everything the program reaches outside
its own memory (files read and written, the build directory, the external
build pipeline) goes through a `Host` record that also keeps the list of
the calls made so far, so that statements such as "no process is spawned"
or "exactly one save attempt" can be written down.

Conventions of the embedding:
* `std::string` is `String`, `std::vector` is `List`, `int` is `Int`
  (the number of open editors is far below `2^31`, no wrap-around is
  modelled), `size_t` loop counters are `Nat`;
* the third-party text widget (`TextEditor`) is reduced to the text it
  holds: `SetText` stores a string, `GetText` returns it;
* paths are in the generic format of `std::filesystem` (separator `/`).
-/

namespace LightEdit

/-! ## Data model -/

/-- The class `CustomTextEditor` (main.cpp 29-54): the text held by the base
widget, the bound path and the dirty flag.  `savedText` is a ghost field:
it is not a member of the class and no operation reads it; it records the
text this buffer last read from its file or last handed to a stream opened
on its file, so that the dirty invariant can be stated. -/
structure CustomTextEditor where
  text : String
  mFilePath : String
  mIsDirty : Bool
  savedText : String
  deriving DecidableEq

/-- The struct `DirectoryNode` (main.cpp 57-62).  The `std::map` of
subdirectories is an association list kept sorted by key. -/
inductive DirectoryNode where
  | mk (name : String) (fullPath : String)
      (subdirectories : List (String × DirectoryNode)) (files : List String)

namespace DirectoryNode

/-- Member `name`. -/
def name : DirectoryNode → String
  | mk n _ _ _ => n

/-- Member `fullPath`. -/
def fullPath : DirectoryNode → String
  | mk _ p _ _ => p

/-- Member `subdirectories`, in key order. -/
def subdirectories : DirectoryNode → List (String × DirectoryNode)
  | mk _ _ s _ => s

/-- Member `files`, in insertion order. -/
def files : DirectoryNode → List String
  | mk _ _ _ f => f

/-- A value-initialised node, `DirectoryNode()`. -/
def empty : DirectoryNode := mk "" "" [] []

end DirectoryNode

/-- The struct `AppState` (main.cpp 65-72). -/
structure AppState where
  projectPath : String
  projectRoot : DirectoryNode
  editors : List CustomTextEditor
  activeEditorIndex : Int
  buildOutput : String
  showDemoWindow : Bool

/-- The state `AppState state;` the main loop starts from (main.cpp 142). -/
def AppState.initial : AppState :=
  { projectPath := "", projectRoot := DirectoryNode.empty, editors := [],
    activeEditorIndex := -1, buildOutput := "", showDemoWindow := false }

/-! ## The host: file system and external process -/

/-- Calls the program makes to the outside, in the order they are made. -/
inductive Event where
  | saveCalled (path : String)
  | ofstream (path : String) (good : Bool)
  | createDirectory (path : String)
  | popen (cmd : String)
  deriving DecidableEq

/-- What the program can observe of the file system.
* `read p` is the content `std::ifstream t(p)` delivers, `none` when
  `t.good()` is false;
* `canWrite p` tells whether `std::ofstream out(p)` is `good()`;
* `stored p text` is what the file `p` holds once `out << text` has run on
  a stream freshly opened on `p` and the stream is closed: `text` when the
  write completes, something else (a part of it, say, on a full device)
  when it does not; the program never tests the stream after writing;
* `isPresent p` is `fs::exists(p)`;
* `canMkdir p` tells whether `fs::create_directory(p)` succeeds (it throws
  otherwise). -/
structure FileSystem where
  read : String → Option String
  canWrite : String → Bool
  stored : String → String → String
  isPresent : String → Bool
  canMkdir : String → Bool

/-- The file system in which the file `p` exists and holds `content`, all
else as in `fs`. -/
def FileSystem.write (fs : FileSystem) (p : String) (content : String) : FileSystem :=
  { fs with
    read := fun q => if q = p then some content else fs.read q
    isPresent := fun q => if q = p then true else fs.isPresent q }

/-- The effect of a successful `fs::create_directory(p)`. -/
def FileSystem.mkdir (fs : FileSystem) (p : String) : FileSystem :=
  { fs with isPresent := fun q => if q = p then true else fs.isPresent q }

/-- The file system and the calls made so far, oldest first. -/
structure Host where
  fs : FileSystem
  trace : List Event

/-- Appends one call to the trace. -/
def Host.emit (h : Host) (e : Event) : Host :=
  { h with trace := h.trace ++ [e] }

/-- What `popen` followed by the `fgets` loop and `pclose` delivers
(main.cpp 564-574): `spawnFailed` when `popen` returns a null pipe,
otherwise the captured text, the value returned by `pclose` and the file
system the pipeline leaves behind. -/
inductive ProcResult where
  | spawnFailed
  | exited (output : String) (returnCode : Int) (after : FileSystem)

/-- The program state together with the host it runs on. -/
structure World where
  state : AppState
  host : Host

/-- The world at program start on file system `fs`. -/
def World.initial (fs : FileSystem) : World :=
  { state := AppState.initial, host := { fs := fs, trace := [] } }

/-- The statement `state.buildOutput += line`. -/
def World.log (w : World) (line : String) : World :=
  { w with state := { w.state with buildOutput := w.state.buildOutput ++ line } }

/-! ## CustomTextEditor -/

/-- A default-constructed editor, `std::make_unique<CustomTextEditor>()`. -/
def CustomTextEditor.new : CustomTextEditor :=
  { text := "", mFilePath := "", mIsDirty := false, savedText := "" }

/-- `CustomTextEditor::SetFilePath` (main.cpp 31-34). -/
def CustomTextEditor.SetFilePath (e : CustomTextEditor) (path : String) : CustomTextEditor :=
  { e with mFilePath := path, mIsDirty := false }

/-- `CustomTextEditor::SetDirty` (main.cpp 37). -/
def CustomTextEditor.SetDirty (e : CustomTextEditor) (dirty : Bool) : CustomTextEditor :=
  { e with mIsDirty := dirty }

/-- `TextEditor::SetText`, reduced to storing the string. -/
def CustomTextEditor.SetText (e : CustomTextEditor) (s : String) : CustomTextEditor :=
  { e with text := s }

/-- `CustomTextEditor::Save` (main.cpp 39-49).  Returns the result of the
call, the editor afterwards and the host afterwards.  Once the stream is
`good()` after opening, the text is written, the flag cleared and `true`
returned without a look at the stream: the file then holds what the host
stored of the text. -/
def CustomTextEditor.Save (e : CustomTextEditor) (h : Host) : Bool × CustomTextEditor × Host :=
  let h0 := h.emit (.saveCalled e.mFilePath)
  if e.mFilePath = "" then (false, e, h0)
  else if h.fs.canWrite e.mFilePath then
    (true, { e with mIsDirty := false, savedText := e.text },
      { fs := h.fs.write e.mFilePath (h.fs.stored e.mFilePath e.text),
        trace := (h0.emit (.ofstream e.mFilePath true)).trace })
  else (false, e, h0.emit (.ofstream e.mFilePath false))

/-! ## Editor registry -/

/-- The search loop of main.cpp 372-378 over the editors from index `i` on:
the first index whose editor is bound to `file`. -/
def findOpen (file : String) : List CustomTextEditor → Nat → Option Nat
  | [], _ => none
  | e :: es, i => if e.mFilePath = file then some i else findOpen file es (i + 1)

/-- The click handler of a file entry in `RenderDirectoryNode`
(main.cpp 369-398): activate the editor already bound to `file`, or load
the file into a new editor, or report that it cannot be read. -/
def openFile (w : World) (file : String) : World :=
  match findOpen file w.state.editors 0 with
  | some i => { w with state := { w.state with activeEditorIndex := (i : Int) } }
  | none =>
    match w.host.fs.read file with
    | some str =>
      let editor := { (CustomTextEditor.new.SetText str).SetFilePath file with savedText := str }
      let editors := w.state.editors ++ [editor]
      { w with state := { w.state with
          editors := editors, activeEditorIndex := (editors.length : Int) - 1 } }
    | none =>
      { w with state := { w.state with
          buildOutput := "Failed to open file: " ++ file ++ "\n" } }

/-- `state.activeEditorIndex = i` when `BeginTabItem` reports tab `i`
selected (main.cpp 445-446). -/
def selectTab (w : World) (i : Nat) : World :=
  { w with state := { w.state with activeEditorIndex := (i : Int) } }

/-- `editor->SetDirty(true)` on editor `i` (main.cpp 455-457). -/
def markDirty (w : World) (i : Nat) : World :=
  match w.state.editors[i]? with
  | none => w
  | some e => { w with state := { w.state with editors := w.state.editors.set i (e.SetDirty true) } }

/-- `editor->Render(...)` on editor `i` during which the user changes the
text to `newText`; the widget then reports `IsTextChanged()` and the
editor is marked dirty (main.cpp 452-457). -/
def editText (w : World) (i : Nat) (newText : String) : World :=
  match w.state.editors[i]? with
  | none => w
  | some e =>
    markDirty { w with state := { w.state with editors := w.state.editors.set i (e.SetText newText) } } i

/-- The statement repeated at main.cpp 465-470, 518-525 and 539-544: call
`Save()` on editor `i` and append the outcome to the console. -/
def saveAt (w : World) (i : Nat) : Bool × World :=
  match w.state.editors[i]? with
  | none => (false, w)
  | some e =>
    match e.Save w.host with
    | (true, e1, h1) =>
      (true,
        { state :=
            { w.state with
              editors := w.state.editors.set i e1
              buildOutput := w.state.buildOutput ++ ("Saved: " ++ e.mFilePath ++ "\n") }
          host := h1 })
    | (false, e1, h1) =>
      (false,
        { state :=
            { w.state with
              editors := w.state.editors.set i e1
              buildOutput := w.state.buildOutput ++ ("Failed to save: " ++ e.mFilePath ++ "\n") }
          host := h1 })

/-- The block run when the close button of tab `i` was pressed
(main.cpp 462-478): save if dirty, erase, re-clamp the active index. -/
def closeTab (w : World) (i : Nat) : World :=
  match w.state.editors[i]? with
  | none => w
  | some e =>
    let w1 := if e.mIsDirty then (saveAt w i).2 else w
    let editors := w1.state.editors.eraseIdx i
    let active :=
      if w1.state.activeEditorIndex ≥ (editors.length : Int) then
        (if editors.isEmpty then -1 else (editors.length : Int) - 1)
      else w1.state.activeEditorIndex
    { w1 with state := { w1.state with editors := editors, activeEditorIndex := active } }

/-- `SaveCurrentFile` (main.cpp 515-528). -/
def SaveCurrentFile (w : World) : Bool × World :=
  if 0 ≤ w.state.activeEditorIndex ∧ w.state.activeEditorIndex < (w.state.editors.length : Int) then
    saveAt w w.state.activeEditorIndex.toNat
  else (false, w)

/-- The "Clear" button of the console (main.cpp 498-500). -/
def clearConsole (w : World) : World :=
  { w with state := { w.state with buildOutput := "" } }

/-! ## Tab bar frame -/

/-- What the user interface reports for one tab during one frame:
whether `BeginTabItem` returned true, the text after `Render` when the
widget reports a change, and whether the close button cleared `tabOpen`. -/
structure TabInput where
  selected : Bool
  edit : Option String
  closed : Bool

/-- One iteration of the loop body of `RenderEditorTabs` (main.cpp 437-478)
for index `i`. -/
def tabItem (w : World) (i : Nat) (inp : TabInput) : World :=
  let w1 :=
    if inp.selected then
      match inp.edit with
      | some t => editText (selectTab w i) i t
      | none => selectTab w i
    else w
  if inp.closed then closeTab w1 i else w1

/-- The loop of `RenderEditorTabs` (main.cpp 436-479) from index `i` on;
`inputs k` is what the interface reports in the `k`-th iteration from now.
After a removal the same index is visited again (`--i` then `++i`).
`n` bounds the number of iterations; `editors.size() - i` suffices since
every iteration either advances `i` or removes an editor. -/
def tabLoop : Nat → (Nat → TabInput) → Nat → World → World
  | 0, _, _, w => w
  | n + 1, inputs, i, w =>
    if i < w.state.editors.length then
      let w1 := tabItem w i (inputs 0)
      tabLoop n (fun k => inputs (k + 1)) (if (inputs 0).closed then i else i + 1) w1
    else w

/-- `RenderEditorTabs` (main.cpp 430-488), state changes only. -/
def RenderEditorTabs (w : World) (inputs : Nat → TabInput) : World :=
  if w.state.editors.isEmpty then w
  else tabLoop w.state.editors.length inputs 0 w

/-! ## Build invoker -/

/-- The loop of main.cpp 537-546 over the editors from index `i` on, `n`
editors remaining. -/
def saveAllDirty : Nat → Nat → World → World
  | 0, _, w => w
  | n + 1, i, w =>
    match w.state.editors[i]? with
    | none => w
    | some e => saveAllDirty n (i + 1) (if e.mIsDirty then (saveAt w i).2 else w)

/-- `BuildProject` (main.cpp 530-578).  `proc` is what the host delivers
for the `popen` call.  The result is `none` when `fs::create_directory`
throws: the exception is not caught and the program ends. -/
def BuildProject (w : World) (proc : ProcResult) : Option World :=
  if w.state.projectPath = "" then
    some { w with state := { w.state with buildOutput := "No project loaded\n" } }
  else
    let w1 := saveAllDirty w.state.editors.length 0 w
    let w2 := w1.log "Building project...\n"
    let buildDir := w2.state.projectPath ++ "/build"
    let made : Option World :=
      if w2.host.fs.isPresent buildDir then some w2
      else if w2.host.fs.canMkdir buildDir then
        some { w2 with host :=
          { fs := w2.host.fs.mkdir buildDir,
            trace := (w2.host.emit (.createDirectory buildDir)).trace } }
      else none
    match made with
    | none => none
    | some w3 =>
      let cmd := "cd " ++ buildDir ++ " && cmake .. && cmake --build ."
      let w4 := { w3 with host := w3.host.emit (.popen cmd) }
      match proc with
      | .spawnFailed => some (w4.log "Failed to execute build command\n")
      | .exited result returnCode after =>
        let w5 := { w4 with host := { w4.host with fs := after } }
        some ((w5.log result).log
          (if returnCode = 0 then "Build succeeded!\n" else "Build failed!\n"))

/-! ## Directory scanner -/

/-- `fs::path::filename()` on a generic-format path: what follows the last
`/` (empty when the path ends in `/`). -/
def filename (path : String) : String :=
  String.mk (path.data.reverse.takeWhile (fun c => c != '/')).reverse

/-- `fs::path::extension()`: the part of the file name from its rightmost
period on; empty for `.` and `..`, when there is no period, and when the
only period is the first character. -/
def extension (path : String) : String :=
  let f := (filename path).data
  let tail := f.reverse.takeWhile (fun c => c != '.')
  if f = ['.', '.'] then ""
  else if tail.length = f.length then ""
  else if tail.length + 1 = f.length then ""
  else String.mk ('.' :: tail.reverse)

/-- The extension test of main.cpp 336. -/
def whitelisted (ext : String) : Bool :=
  ext == ".cpp" || ext == ".h" || ext == ".hpp" || ext == ".c" || ext == ".txt" || ext == ".md"

/-- What `fs::directory_iterator` delivers for a directory, entry by entry:
a subdirectory with its own entries, a regular file, an entry that is
neither, or the point at which the enumeration throws
`fs::filesystem_error` with message `what`. -/
inductive FsEntry where
  | dir (path : String) (entries : List FsEntry)
  | file (path : String)
  | other (path : String)
  | error (what : String)

/-- `std::string::operator<` on the characters of two strings:
lexicographic comparison (the byte order of UTF-8 text is the order of its
code points). -/
def strLt : List Char → List Char → Bool
  | _, [] => false
  | [], _ :: _ => true
  | a :: as, b :: bs =>
    if a.toNat < b.toNat then true
    else if b.toNat < a.toNat then false
    else strLt as bs

/-- Lookup in the `std::map` of subdirectories. -/
def mapFind (k : String) : List (String × DirectoryNode) → Option DirectoryNode
  | [] => none
  | (k1, v) :: rest => if k1 = k then some v else mapFind k rest

/-- Store `v` under `k` in the `std::map` of subdirectories, keeping the
keys in increasing order and replacing the value of an existing key. -/
def mapInsert (k : String) (v : DirectoryNode) :
    List (String × DirectoryNode) → List (String × DirectoryNode)
  | [] => [(k, v)]
  | (k1, v1) :: rest =>
    if strLt k.data k1.data then (k, v) :: (k1, v1) :: rest
    else if k = k1 then (k, v) :: rest
    else (k1, v1) :: mapInsert k v rest

mutual
/-- One iteration of the loop of `BuildDirectoryTree` (main.cpp 327-339)
for the entry the iterator delivers.  The node is filled in place, so the
second component is the message of the exception that ended the walk, if
any, and the first is the node as it stands at that point. -/
def BuildDirectoryTree.entry (root : DirectoryNode) : FsEntry → DirectoryNode × Option String
  | .dir path entries =>
    let dirName := filename path
    let old := (mapFind dirName root.subdirectories).getD DirectoryNode.empty
    let newNode := DirectoryNode.mk dirName path old.subdirectories old.files
    match BuildDirectoryTree newNode entries with
    | (child, thrown) =>
      (DirectoryNode.mk root.name root.fullPath
        (mapInsert dirName child root.subdirectories) root.files, thrown)
  | .file path =>
    if whitelisted (extension path) then
      (DirectoryNode.mk root.name root.fullPath root.subdirectories (root.files ++ [path]), none)
    else (root, none)
  | .other _ => (root, none)
  | .error what => (root, some what)
termination_by structural e => e
/-- `BuildDirectoryTree` (main.cpp 325-341) on the entries the iterator
delivers for `currentPath`: the node afterwards and the message of the
exception that ended the walk, if any. -/
def BuildDirectoryTree (root : DirectoryNode) : List FsEntry → DirectoryNode × Option String
  | [] => (root, none)
  | e :: rest =>
    match BuildDirectoryTree.entry root e with
    | (r, some what) => (r, some what)
    | (r, none) => BuildDirectoryTree r rest
termination_by structural es => es
end

/-- `ScanProjectDirectory` (main.cpp 343-354); `entries` is what the
iterator delivers for `path`. -/
def ScanProjectDirectory (w : World) (path : String) (entries : List FsEntry) : World :=
  let root := DirectoryNode.mk (filename path) path [] []
  match BuildDirectoryTree root entries with
  | (tree, none) => { w with state := { w.state with projectRoot := tree } }
  | (tree, some what) =>
    { w with state := { w.state with
        projectRoot := tree
        buildOutput := "Error scanning directory: " ++ what ++ "\n" } }

/-- The "Open Project" action (main.cpp 198-205 and 417-424): record the
path, then scan it. -/
def openProject (w : World) (path : String) (entries : List FsEntry) : World :=
  ScanProjectDirectory { w with state := { w.state with projectPath := path } } path entries

/-! ## Operations and reachable states -/

/-- The user actions that change the state, with what the host delivers
for them. -/
inductive Op where
  | openFile (file : String)
  | selectTab (i : Nat)
  | markDirty (i : Nat)
  | editText (i : Nat) (newText : String)
  | save
  | closeTab (i : Nat)
  | build (proc : ProcResult)
  | frame (inputs : Nat → TabInput)
  | openProject (path : String) (entries : List FsEntry)
  | clearConsole

/-- Runs one operation.  The result is `none` when a tab operation names an
index that is not an open tab (the program never does that: the index is
the loop counter of `RenderEditorTabs`) and when `BuildProject` ends the
program. -/
def Op.run : Op → World → Option World
  | .openFile file, w => some (LightEdit.openFile w file)
  | .selectTab i, w =>
    if i < w.state.editors.length then some (LightEdit.selectTab w i) else none
  | .markDirty i, w =>
    if i < w.state.editors.length then some (LightEdit.markDirty w i) else none
  | .editText i t, w =>
    if i < w.state.editors.length then some (LightEdit.editText w i t) else none
  | .save, w => some (SaveCurrentFile w).2
  | .closeTab i, w =>
    if i < w.state.editors.length then some (LightEdit.closeTab w i) else none
  | .build proc, w => BuildProject w proc
  | .frame inputs, w => some (RenderEditorTabs w inputs)
  | .openProject path entries, w => some (LightEdit.openProject w path entries)
  | .clearConsole, w => some (LightEdit.clearConsole w)

/-- Runs a sequence of operations, first to last. -/
def runOps : List Op → World → Option World
  | [], w => some w
  | op :: ops, w =>
    match op.run w with
    | none => none
    | some w1 => runOps ops w1

/-- The worlds the program can be in: those obtained from a start world by
a sequence of operations. -/
inductive Reachable : World → Prop where
  | init (fs : FileSystem) : Reachable (World.initial fs)
  | step {w w1 : World} (op : Op) : Reachable w → op.run w = some w1 → Reachable w1

/-- The invariant of the active index: `-1`, or an index of an open
editor. -/
def ActiveOk (s : AppState) : Prop :=
  s.activeEditorIndex = -1 ∨
    (0 ≤ s.activeEditorIndex ∧ s.activeEditorIndex < (s.editors.length : Int))

/-- Every clean editor of the list holds the text it last loaded or
saved. -/
def CleanMatch (l : List CustomTextEditor) : Prop :=
  ∀ e ∈ l, e.mIsDirty = false → e.text = e.savedText

/-- The console line that reports a `Save()` call on editor `e` when
`canWrite` tells which files can be opened for writing. -/
def saveLine (canWrite : String → Bool) (e : CustomTextEditor) : String :=
  (if e.mFilePath ≠ "" ∧ canWrite e.mFilePath = true then "Saved: " else "Failed to save: ")
    ++ e.mFilePath ++ "\n"

/-- The report lines for the dirty editors of a list, in order. -/
def saveLines (canWrite : String → Bool) : List CustomTextEditor → String
  | [] => ""
  | e :: es =>
    if e.mIsDirty then saveLine canWrite e ++ saveLines canWrite es
    else saveLines canWrite es

/-- The paths of the dirty editors of a list, in order. -/
def dirtyPaths : List CustomTextEditor → List String
  | [] => []
  | e :: es => if e.mIsDirty then e.mFilePath :: dirtyPaths es else dirtyPaths es

/-- Whether the operation is the explicit clear-console action. -/
def Op.isClear : Op → Bool
  | .clearConsole => true
  | _ => false

/-- The three places that assign to `state.buildOutput` instead of
appending to it (main.cpp 396, 352 and 532): the line the console is
replaced by when `op` takes one of them in world `w`, `none` otherwise. -/
def Op.replacement : Op → World → Option String
  | .openFile file, w =>
    if findOpen file w.state.editors 0 = none ∧ w.host.fs.read file = none then
      some ("Failed to open file: " ++ file ++ "\n")
    else none
  | .openProject path entries, _ =>
    match (BuildDirectoryTree (DirectoryNode.mk (filename path) path [] []) entries).2 with
    | some what => some ("Error scanning directory: " ++ what ++ "\n")
    | none => none
  | .build _, w => if w.state.projectPath = "" then some "No project loaded\n" else none
  | _, _ => none

/-- The console text `a` is an initial part of the console text `b`. -/
def LogPrefix (a b : String) : Prop := a.data <+: b.data

instance (a b : String) : Decidable (LogPrefix a b) := by
  unfold LogPrefix; infer_instance

/-- The paths of the `Save()` calls recorded in a trace, in order. -/
def saveCalls : List Event → List String
  | [] => []
  | .saveCalled p :: rest => p :: saveCalls rest
  | _ :: rest => saveCalls rest

/-- The commands of the `popen` calls recorded in a trace, in order. -/
def popenCalls : List Event → List String
  | [] => []
  | .popen c :: rest => c :: popenCalls rest
  | _ :: rest => popenCalls rest

/-- The operation closes no tab: it is not a close, and a frame reports no
pressed close button. -/
def Op.noClose : Op → Prop
  | .closeTab _ => False
  | .frame inputs => ∀ k, (inputs k).closed = false
  | _ => True

/-- The paths the open editors are bound to, in tab order. -/
def openPaths (w : World) : List String :=
  w.state.editors.map (fun e => e.mFilePath)

/-- The search of `findOpen` on a list of paths. -/
def findPath (file : String) : List String → Nat → Option Nat
  | [], _ => none
  | p :: ps, i => if p = file then some i else findPath file ps (i + 1)

/-- The disk agrees with the registry: no two open buffers are bound to
the same path, and under the path of every open buffer the file holds the
text that buffer last read or saved. -/
def DiskMatch (w : World) : Prop :=
  (openPaths w).Nodup ∧
    ∀ e ∈ w.state.editors, w.host.fs.read e.mFilePath = some e.savedText

/-- Every write completes on the file system of `w`, and the disk agrees
with the registry. -/
def Settled (w : World) : Prop :=
  (∀ p t, w.host.fs.stored p t = t) ∧ DiskMatch w

/-- The host behaves during `op` started in `w`: the writes of its saves
complete, and a build pipeline that runs leaves under the paths of the open
buffers what it found there. -/
def CalmStep (op : Op) (w : World) : Prop :=
  (∀ p t, w.host.fs.stored p t = t) ∧
    match op with
    | .build (.exited _ _ after) =>
      ∀ p ∈ openPaths w,
        after.read p = (saveAllDirty w.state.editors.length 0 w).host.fs.read p
    | _ => True

/-- The worlds reached from a start world by operations during which the
host behaves. -/
inductive CalmReachable : World → Prop where
  | init (fs : FileSystem) : CalmReachable (World.initial fs)
  | step {w w1 : World} (op : Op) :
    CalmReachable w → CalmStep op w → op.run w = some w1 → CalmReachable w1

/-! ## What a scan delivers -/

mutual
/-- Whether the enumeration of an entry and of everything below it ends
without throwing. -/
def FsEntry.quiet : FsEntry → Bool
  | .dir _ entries => FsEntry.allQuiet entries
  | .file _ => true
  | .other _ => true
  | .error _ => false
termination_by structural e => e
/-- Whether the enumeration of a listing and of everything below it ends
without throwing. -/
def FsEntry.allQuiet : List FsEntry → Bool
  | [] => true
  | e :: rest => FsEntry.quiet e && FsEntry.allQuiet rest
termination_by structural es => es
end

/-- The paths of the regular-file entries of a listing whose extension is
one of `.cpp`, `.h`, `.hpp`, `.c`, `.txt`, `.md`, in enumeration order. -/
def listedFiles : List FsEntry → List String
  | [] => []
  | .file path :: rest =>
    if whitelisted (extension path) then path :: listedFiles rest else listedFiles rest
  | _ :: rest => listedFiles rest

/-- The names of the subdirectory entries of a listing, in enumeration
order. -/
def listedDirNames : List FsEntry → List String
  | [] => []
  | .dir path _ :: rest => filename path :: listedDirNames rest
  | _ :: rest => listedDirNames rest

/-- The subdirectory entries of a listing in enumeration order, each as
its name and the scan of that subdirectory into a fresh node that carries
its name and path. -/
def listedDirs : List FsEntry → List (String × DirectoryNode)
  | [] => []
  | .dir path entries :: rest =>
    (filename path,
      (BuildDirectoryTree (DirectoryNode.mk (filename path) path [] []) entries).1)
      :: listedDirs rest
  | _ :: rest => listedDirs rest

/-- The keys of a subdirectory map increase strictly along the list, which
is the order in which `RenderDirectoryNode` iterates it. -/
def KeysIncreasing (m : List (String × DirectoryNode)) : Prop :=
  m.Pairwise (fun a b => strLt a.1.data b.1.data = true)

/-! ## Example hosts and worlds -/

/-- A file system with three readable files, of which `notes.txt` cannot
be written, and no build directory yet. -/
def demoFs : FileSystem :=
  { read := fun p =>
      if p = "src/main.cpp" then some "int main() {}"
      else if p = "README.md" then some "# LightEdit"
      else if p = "notes.txt" then some "todo"
      else none
    canWrite := fun p => p == "src/main.cpp" || p == "README.md"
    stored := fun _ text => text
    isPresent := fun p => p == "src/main.cpp" || p == "README.md" || p == "notes.txt"
    canMkdir := fun _ => true }

/-- The file system `demoFs` on a device that takes four characters of
every write. -/
def fullFs : FileSystem :=
  { demoFs with stored := fun _ text => String.mk (text.data.take 4) }

/-- The world after opening the three files of `demoFs` in turn. -/
def demoThree : World :=
  openFile (openFile (openFile (World.initial demoFs) "src/main.cpp") "README.md") "notes.txt"

/-- The world `demoThree` with the first tab selected. -/
def demoFirstActive : World := selectTab demoThree 0

/-- The world after opening `src/main.cpp` only. -/
def demoOne : World := openFile (World.initial demoFs) "src/main.cpp"

/-- The world `demoOne` after the user typed into the first tab. -/
def demoEdited : World := editText demoOne 0 "int main() { return 0; }"

/-- The world in which `src/main.cpp` was opened on `fullFs` and the user
typed into its tab. -/
def demoEditedFull : World :=
  editText (openFile (World.initial fullFs) "src/main.cpp") 0 "int main() { return 0; }"

/-- A frame in which the first tab is selected and its text becomes `t`;
nothing is reported for the other tabs. -/
def typeInFirstTab (t : String) : Nat → TabInput
  | 0 => { selected := true, edit := some t, closed := false }
  | _ => { selected := false, edit := none, closed := false }

/-- The world `demoOne` after two frames: a character is typed into the
first tab, then deleted again. -/
def demoTypedBack : World :=
  RenderEditorTabs (RenderEditorTabs demoOne (typeInFirstTab "int main() {}x"))
    (typeInFirstTab "int main() {}")

/-- Operations that close no tab: open `notes.txt`, select the first tab,
type into it during a frame, save. -/
def demoBetween : List Op :=
  [.openFile "notes.txt", .selectTab 0, .frame (typeInFirstTab "int x;"), .save]

/-- The world reached from `demoOne` by opening `README.md` and then
running `demoBetween`. -/
def demoReopen : World :=
  (SaveCurrentFile
    (RenderEditorTabs
      (selectTab (openFile (openFile demoOne "README.md") "notes.txt") 0)
      (typeInFirstTab "int x;"))).2

/-- The world `demoEdited` after the save shortcut. -/
def demoSaved : World := (SaveCurrentFile demoEdited).2

/-- A world with the project `proj` loaded (an empty directory listing),
`src/main.cpp` and `notes.txt` open and both edited. -/
def demoProject : World :=
  editText (editText
    (openFile (openFile (openProject (World.initial demoFs) "proj" []) "src/main.cpp") "notes.txt")
    0 "int main() { return 1; }") 1 "done"

/-- A listing of the directory `proj` in which `src` is enumerated before
`build`, with a whitelisted file, an object file, a socket and a file
without extension. -/
def demoListing : List FsEntry :=
  [.dir "proj/src" [.file "proj/src/main.cpp", .file "proj/src/main.o"],
    .file "proj/Makefile", .file "proj/README.md", .other "proj/ctl.sock",
    .dir "proj/build" [], .file "proj/lib.h"]

/-- A listing of `proj` whose first entry is a subdirectory that cannot be
read, followed by a source file. -/
def lockedListing : List FsEntry :=
  [.dir "proj/locked" [.error "permission denied"], .file "proj/main.cpp"]

/-- The project root of the scenario: the directory `src` holding
`main.cpp`, the file `README.md` and the empty directory `build`. -/
def scenarioListing : List FsEntry :=
  [.dir "proj/src" [.file "proj/src/main.cpp"], .file "proj/README.md", .dir "proj/build" []]

/-- The tree the scenario yields: the subdirectories `build` and `src` in
key order, `README.md` as the only file of the root. -/
def scenarioTree : DirectoryNode :=
  .mk "proj" "proj"
    [("build", .mk "build" "proj/build" [] []),
      ("src", .mk "src" "proj/src" [] ["proj/src/main.cpp"])]
    ["proj/README.md"]

/-! ## Basic facts about `Save` and `saveAt` -/

theorem Save_fst (e : CustomTextEditor) (h : Host) :
    (e.Save h).1 = (decide (e.mFilePath ≠ "") && h.fs.canWrite e.mFilePath) := by
  unfold CustomTextEditor.Save
  by_cases h1 : e.mFilePath = "" <;> by_cases h2 : h.fs.canWrite e.mFilePath = true <;> simp [h1, h2]

theorem Save_path (e : CustomTextEditor) (h : Host) :
    (e.Save h).2.1.mFilePath = e.mFilePath := by
  unfold CustomTextEditor.Save
  by_cases h1 : e.mFilePath = "" <;> by_cases h2 : h.fs.canWrite e.mFilePath = true <;> simp [h1, h2]

theorem Save_text (e : CustomTextEditor) (h : Host) :
    (e.Save h).2.1.text = e.text := by
  unfold CustomTextEditor.Save
  by_cases h1 : e.mFilePath = "" <;> by_cases h2 : h.fs.canWrite e.mFilePath = true <;> simp [h1, h2]

theorem saveAt_eq (w : World) (i : Nat) (e : CustomTextEditor)
    (h : w.state.editors[i]? = some e) :
    saveAt w i =
      ((e.Save w.host).1,
        { state :=
            { w.state with
              editors := w.state.editors.set i (e.Save w.host).2.1
              buildOutput := w.state.buildOutput ++
                ((if (e.Save w.host).1 then "Saved: " else "Failed to save: ")
                  ++ e.mFilePath ++ "\n") }
          host := (e.Save w.host).2.2 }) := by
  unfold saveAt
  rw [h]
  rcases hs : e.Save w.host with ⟨ok, e1, h1⟩
  cases ok <;> simp [hs]

/-! ## The active index -/

theorem findOpen_spec (file : String) (es : List CustomTextEditor) (k i : Nat)
    (h : findOpen file es k = some i) :
    k ≤ i ∧ i < k + es.length ∧ (∃ e, es[i - k]? = some e ∧ e.mFilePath = file) := by
  induction es generalizing k with
  | nil => simp [findOpen] at h
  | cons e es ih =>
    unfold findOpen at h
    by_cases he : e.mFilePath = file
    · simp [he] at h
      subst h
      simp [he]
    · simp [he] at h
      obtain ⟨h1, h2, e1, h3, h4⟩ := ih (k + 1) h
      refine ⟨by omega, by simp; omega, e1, ?_, h4⟩
      have : i - k = (i - (k + 1)) + 1 := by omega
      rw [this]
      simpa using h3

theorem findOpen_none (file : String) (es : List CustomTextEditor) (k : Nat) :
    findOpen file es k = none ↔ ∀ e ∈ es, e.mFilePath ≠ file := by
  induction es generalizing k with
  | nil => simp [findOpen]
  | cons e es ih =>
    unfold findOpen
    by_cases he : e.mFilePath = file
    · simp [he]
    · simp [he, ih]

theorem saveAt_length (w : World) (i : Nat) :
    (saveAt w i).2.state.editors.length = w.state.editors.length := by
  cases h : w.state.editors[i]? with
  | none => simp [saveAt, h]
  | some e => simp [saveAt_eq w i e h]

theorem saveAt_active (w : World) (i : Nat) :
    (saveAt w i).2.state.activeEditorIndex = w.state.activeEditorIndex := by
  cases h : w.state.editors[i]? with
  | none => simp [saveAt, h]
  | some e => simp [saveAt_eq w i e h]

theorem markDirty_length (w : World) (i : Nat) :
    (markDirty w i).state.editors.length = w.state.editors.length := by
  unfold markDirty
  cases h : w.state.editors[i]? <;> simp

theorem markDirty_active (w : World) (i : Nat) :
    (markDirty w i).state.activeEditorIndex = w.state.activeEditorIndex := by
  unfold markDirty
  cases h : w.state.editors[i]? <;> simp

theorem editText_length (w : World) (i : Nat) (t : String) :
    (editText w i t).state.editors.length = w.state.editors.length := by
  unfold editText
  cases h : w.state.editors[i]? <;> simp [markDirty_length]

theorem editText_active (w : World) (i : Nat) (t : String) :
    (editText w i t).state.activeEditorIndex = w.state.activeEditorIndex := by
  unfold editText
  cases h : w.state.editors[i]? <;> simp [markDirty_active]

theorem openFile_ActiveOk (w : World) (file : String) (h : ActiveOk w.state) :
    ActiveOk (openFile w file).state := by
  unfold openFile
  cases hf : findOpen file w.state.editors 0 with
  | some i =>
    have := findOpen_spec file _ 0 i hf
    simp only [ActiveOk]
    right
    constructor
    · simp
    · simp only [Nat.cast_lt]; omega
  | none =>
    cases hr : w.host.fs.read file with
    | some str =>
      simp only [ActiveOk]
      right
      constructor <;> simp
    | none => simpa [ActiveOk] using h

theorem closeTab_ActiveOk (w : World) (i : Nat) (hi : i < w.state.editors.length)
    (h : ActiveOk w.state) : ActiveOk (closeTab w i).state := by
  unfold closeTab
  have he : w.state.editors[i]? = some w.state.editors[i] := by simp [hi]
  rw [he]
  simp only [ActiveOk] at h ⊢
  by_cases hd : (w.state.editors[i]).mIsDirty = true
  · simp only [hd, if_true, saveAt_active, List.length_eraseIdx, saveAt_length, hi]
    simp
    split_ifs <;> omega
  · simp only [hd]
    simp [List.length_eraseIdx, hi]
    split_ifs <;> omega

theorem saveAllDirty_length (n i : Nat) (w : World) :
    (saveAllDirty n i w).state.editors.length = w.state.editors.length := by
  induction n generalizing i w with
  | zero => simp [saveAllDirty]
  | succ n ih =>
    unfold saveAllDirty
    cases h : w.state.editors[i]? with
    | none => simp
    | some e =>
      simp only [ih]
      split_ifs <;> simp [saveAt_length]

theorem saveAllDirty_active (n i : Nat) (w : World) :
    (saveAllDirty n i w).state.activeEditorIndex = w.state.activeEditorIndex := by
  induction n generalizing i w with
  | zero => simp [saveAllDirty]
  | succ n ih =>
    unfold saveAllDirty
    cases h : w.state.editors[i]? with
    | none => simp
    | some e =>
      simp only [ih]
      split_ifs <;> simp [saveAt_active]

theorem BuildProject_shape (w w1 : World) (proc : ProcResult) (h : BuildProject w proc = some w1) :
    w1.state.editors.length = w.state.editors.length ∧
      w1.state.activeEditorIndex = w.state.activeEditorIndex := by
  unfold BuildProject at h
  by_cases hp : w.state.projectPath = ""
  · simp [hp] at h
    subst h
    simp
  · simp only [hp, if_false] at h
    split at h
    · simp at h
    · rename_i w3 hm
      have h3 : w3.state = (World.log (saveAllDirty w.state.editors.length 0 w) "Building project...\n").state := by
        split_ifs at hm <;> simp at hm <;> subst hm <;> rfl
      cases proc with
      | spawnFailed =>
        simp at h
        subst h
        simp [World.log, h3, saveAllDirty_length, saveAllDirty_active]
      | exited o rc a =>
        simp at h
        subst h
        simp [World.log, h3, saveAllDirty_length, saveAllDirty_active]

theorem openProject_shape (w : World) (path : String) (entries : List FsEntry) :
    (openProject w path entries).state.editors = w.state.editors ∧
      (openProject w path entries).state.activeEditorIndex = w.state.activeEditorIndex := by
  unfold openProject ScanProjectDirectory
  rcases hb : BuildDirectoryTree (DirectoryNode.mk (filename path) path [] []) entries with
    ⟨tree, _ | what⟩ <;> simp [hb]

theorem tabItem_ActiveOk (w : World) (i : Nat) (inp : TabInput) (hi : i < w.state.editors.length)
    (h : ActiveOk w.state) : ActiveOk (tabItem w i inp).state := by
  unfold tabItem
  have hsel : ActiveOk (selectTab w i).state := by
    simp only [ActiveOk, selectTab]
    right
    constructor
    · simp
    · simp only [Nat.cast_lt]; exact hi
  have h1 : ∀ w0 : World, w0.state.editors.length = w.state.editors.length → ActiveOk w0.state →
      ActiveOk (if inp.closed then closeTab w0 i else w0).state := by
    intro w0 hl h0
    split_ifs
    · exact closeTab_ActiveOk w0 i (by omega) h0
    · exact h0
  cases hs : inp.selected with
  | false => simpa using h1 w rfl h
  | true =>
    cases he : inp.edit with
    | none => simpa using h1 _ (by simp [selectTab]) hsel
    | some t =>
      simp only [if_true]
      apply h1
      · simp [editText_length, selectTab]
      · simp only [ActiveOk, editText_length, editText_active]
        exact hsel

theorem tabLoop_ActiveOk (n : Nat) (inputs : Nat → TabInput) (i : Nat) (w : World)
    (h : ActiveOk w.state) : ActiveOk (tabLoop n inputs i w).state := by
  induction n generalizing inputs i w with
  | zero => simpa [tabLoop] using h
  | succ n ih =>
    unfold tabLoop
    by_cases hi : i < w.state.editors.length
    · rw [if_pos hi]
      exact ih _ _ _ (tabItem_ActiveOk w i _ hi h)
    · rw [if_neg hi]
      exact h

theorem Op_run_ActiveOk (op : Op) (w w1 : World) (hr : op.run w = some w1)
    (h : ActiveOk w.state) : ActiveOk w1.state := by
  cases op with
  | openFile file =>
    simp [Op.run] at hr; subst hr; exact openFile_ActiveOk w file h
  | selectTab i =>
    simp [Op.run] at hr
    obtain ⟨hi, rfl⟩ := hr
    simp only [ActiveOk, selectTab]
    right
    constructor
    · simp
    · simp only [Nat.cast_lt]; exact hi
  | markDirty i =>
    simp [Op.run] at hr
    obtain ⟨hi, rfl⟩ := hr
    simpa only [ActiveOk, markDirty_length, markDirty_active] using h
  | editText i t =>
    simp [Op.run] at hr
    obtain ⟨hi, rfl⟩ := hr
    simpa only [ActiveOk, editText_length, editText_active] using h
  | save =>
    simp [Op.run] at hr; subst hr
    unfold SaveCurrentFile
    split_ifs
    · simpa only [ActiveOk, saveAt_length, saveAt_active] using h
    · exact h
  | closeTab i =>
    simp [Op.run] at hr
    obtain ⟨hi, rfl⟩ := hr
    exact closeTab_ActiveOk w i hi h
  | build proc =>
    simp only [Op.run] at hr
    obtain ⟨h1, h2⟩ := BuildProject_shape w w1 proc hr
    simpa only [ActiveOk, h1, h2] using h
  | frame inputs =>
    simp [Op.run] at hr; subst hr
    unfold RenderEditorTabs
    split_ifs
    · exact h
    · exact tabLoop_ActiveOk _ _ _ _ h
  | openProject path entries =>
    simp [Op.run] at hr; subst hr
    obtain ⟨h1, h2⟩ := openProject_shape w path entries
    simpa only [ActiveOk, h1, h2] using h
  | clearConsole =>
    simp [Op.run] at hr; subst hr
    simpa [ActiveOk, clearConsole] using h

theorem Reachable_runOps (ops : List Op) (w w1 : World) (h : Reachable w)
    (hr : runOps ops w = some w1) : Reachable w1 := by
  induction ops generalizing w with
  | nil =>
    simp [runOps] at hr
    subst hr
    exact h
  | cons op ops ih =>
    unfold runOps at hr
    cases ho : op.run w with
    | none => simp [ho] at hr
    | some w2 =>
      simp only [ho] at hr
      exact ih w2 (Reachable.step op h ho) hr

/-- C1: in every state reachable from the initial state (no buffers, active
index -1) by any sequence of operations (open-file, select-tab, mark-dirty,
save, close-tab and build among them), the active index is -1 or
satisfies `0 ≤ active < number of open buffers`, and it is -1 whenever
there are no buffers. -/
theorem active_index_invariant (w : World) (h : Reachable w) :
    (w.state.activeEditorIndex = -1 ∨
      (0 ≤ w.state.activeEditorIndex ∧
        w.state.activeEditorIndex < (w.state.editors.length : Int))) ∧
    (w.state.editors = [] → w.state.activeEditorIndex = -1) := by
  have hok : ActiveOk w.state := by
    induction h with
    | init fs => left; rfl
    | step op _ hr ih => exact Op_run_ActiveOk op _ _ hr ih
  refine ⟨hok, ?_⟩
  intro he
  rcases hok with h1 | ⟨h1, h2⟩
  · exact h1
  · rw [he] at h2
    simp at h2
    omega

/-- C1 at a concrete run: the three files of `demoFs` opened in turn. -/
theorem active_index_invariant_witness :
    Reachable demoThree ∧
      ((demoThree.state.activeEditorIndex = -1 ∨
        (0 ≤ demoThree.state.activeEditorIndex ∧
          demoThree.state.activeEditorIndex < (demoThree.state.editors.length : Int))) ∧
      (demoThree.state.editors = [] → demoThree.state.activeEditorIndex = -1)) :=
  have hr : Reachable demoThree :=
    Reachable_runOps [.openFile "src/main.cpp", .openFile "README.md", .openFile "notes.txt"]
      (World.initial demoFs) demoThree (Reachable.init demoFs) rfl
  ⟨hr, active_index_invariant demoThree hr⟩

/-! ## Closing a tab -/

theorem eraseIdx_set_same (l : List CustomTextEditor) (i : Nat) (a : CustomTextEditor) :
    (l.set i a).eraseIdx i = l.eraseIdx i := by
  induction l generalizing i with
  | nil => simp
  | cons x xs ih =>
    cases i with
    | zero => simp
    | succ j => simp [ih]

theorem closeTab_editors (w : World) (i : Nat) (hi : i < w.state.editors.length) :
    (closeTab w i).state.editors = w.state.editors.eraseIdx i := by
  unfold closeTab
  have he : w.state.editors[i]? = some w.state.editors[i] := by simp [hi]
  rw [he]
  by_cases hd : (w.state.editors[i]).mIsDirty = true
  · simp [hd, saveAt_eq w i _ he, eraseIdx_set_same]
  · simp [hd]

theorem closeTab_index_eq (w : World) (i : Nat) (hi : i < w.state.editors.length) :
    (closeTab w i).state.activeEditorIndex =
      if w.state.activeEditorIndex ≥ ((w.state.editors.length - 1 : Nat) : Int) then
        (if w.state.editors.length - 1 = 0 then -1
          else ((w.state.editors.length - 1 : Nat) : Int) - 1)
      else w.state.activeEditorIndex := by
  unfold closeTab
  have he : w.state.editors[i]? = some w.state.editors[i] := by simp [hi]
  rw [he]
  by_cases hd : (w.state.editors[i]).mIsDirty = true
  · simp only [hd, if_true, saveAt_active, List.length_eraseIdx, saveAt_length, hi,
      List.isEmpty_iff_length_eq_zero]
  · simp only [hd, List.length_eraseIdx, List.isEmpty_iff_length_eq_zero]
    simp [hi]
/-- C2 fails as stated: with three buffers open and the first one active,
closing buffer 0 leaves two buffers and the active index at 0, not at the
last remaining index 1. -/
theorem closeTab_reclamp_counterexample :
    (0 ≤ demoFirstActive.state.activeEditorIndex ∧
      demoFirstActive.state.activeEditorIndex < (demoFirstActive.state.editors.length : Int)) ∧
    ((0 : Nat) : Int) ≤ demoFirstActive.state.activeEditorIndex ∧
    (closeTab demoFirstActive 0).state.editors.length = 2 ∧
    (closeTab demoFirstActive 0).state.activeEditorIndex = 0 ∧
    (closeTab demoFirstActive 0).state.activeEditorIndex ≠
      ((closeTab demoFirstActive 0).state.editors.length : Int) - 1 := by
  decide

/-- C2 as amended: closing buffer `i` (in particular one with
`i ≤ active`) removes one buffer; the active index is set to the last
remaining index, or to -1 if no buffer remains, exactly when it was the
last index before; otherwise it keeps its value. -/
theorem closeTab_active (w : World) (i : Nat)
    (hv : 0 ≤ w.state.activeEditorIndex ∧
      w.state.activeEditorIndex < (w.state.editors.length : Int))
    (hi : i < w.state.editors.length) :
    (closeTab w i).state.editors.length = w.state.editors.length - 1 ∧
    (closeTab w i).state.activeEditorIndex =
      if w.state.activeEditorIndex = (w.state.editors.length : Int) - 1 then
        (if (closeTab w i).state.editors.length = 0 then -1
          else ((closeTab w i).state.editors.length : Int) - 1)
      else w.state.activeEditorIndex := by
  rw [closeTab_editors w i hi, closeTab_index_eq w i hi, List.length_eraseIdx]
  simp only [hi, if_true, true_and]
  split_ifs <;> omega

/-- C2 as amended, at `demoThree` (active index 2, the last one) closing
buffer 1: the active index becomes 1, the last remaining index. -/
theorem closeTab_active_witness :
    (0 ≤ demoThree.state.activeEditorIndex ∧
      demoThree.state.activeEditorIndex < (demoThree.state.editors.length : Int)) ∧
    1 < demoThree.state.editors.length ∧
    (closeTab demoThree 1).state.editors.length = demoThree.state.editors.length - 1 ∧
    (closeTab demoThree 1).state.activeEditorIndex =
      if demoThree.state.activeEditorIndex = (demoThree.state.editors.length : Int) - 1 then
        (if (closeTab demoThree 1).state.editors.length = 0 then -1
          else ((closeTab demoThree 1).state.editors.length : Int) - 1)
      else demoThree.state.activeEditorIndex :=
  ⟨by decide, by decide, closeTab_active demoThree 1 (by decide) (by decide)⟩

/-! ## Opening a file -/

theorem editText_eq (w : World) (i : Nat) (t : String) (e : CustomTextEditor)
    (he : w.state.editors[i]? = some e) :
    (editText w i t).state.editors = w.state.editors.set i { e with text := t, mIsDirty := true } := by
  have hi : i < w.state.editors.length := (List.getElem?_eq_some.mp he).1
  unfold editText markDirty
  simp [he, hi, CustomTextEditor.SetText, CustomTextEditor.SetDirty]

theorem BuildProject_editors (w w1 : World) (proc : ProcResult)
    (h : BuildProject w proc = some w1) :
    w1.state.editors = w.state.editors ∨
      w1.state.editors = (saveAllDirty w.state.editors.length 0 w).state.editors := by
  unfold BuildProject at h
  by_cases hp : w.state.projectPath = ""
  · simp [hp] at h
    subst h
    left; rfl
  · simp only [hp, if_false] at h
    right
    split at h
    · simp at h
    · rename_i w3 hm
      have h3 : w3.state = (World.log (saveAllDirty w.state.editors.length 0 w)
          "Building project...\n").state := by
        split_ifs at hm <;> simp at hm <;> subst hm <;> rfl
      cases proc with
      | spawnFailed =>
        simp at h
        subst h
        simp [World.log, h3]
      | exited o rc a =>
        simp at h
        subst h
        simp [World.log, h3]


theorem findOpen_append_new (file : String) (es : List CustomTextEditor) (e : CustomTextEditor)
    (k : Nat) (hn : findOpen file es k = none) (he : e.mFilePath = file) :
    findOpen file (es ++ [e]) k = some (k + es.length) := by
  induction es generalizing k with
  | nil => simp [findOpen, he]
  | cons x xs ih =>
    unfold findOpen at hn
    by_cases hx : x.mFilePath = file
    · simp [hx] at hn
    · simp only [hx, if_false] at hn
      have h1 := ih (k + 1) hn
      show findOpen file (x :: (xs ++ [e])) k = _
      unfold findOpen
      simp only [hx, if_false]
      rw [h1, List.length_cons]
      congr 1
      omega

theorem findOpen_mem (file : String) (es : List CustomTextEditor) (k i : Nat)
    (h : findOpen file es k = some i) : ∃ e ∈ es, e.mFilePath = file := by
  obtain ⟨_, _, e, h3, h4⟩ := findOpen_spec file es k i h
  exact ⟨e, List.getElem?_mem h3, h4⟩

theorem findOpen_eq_findPath (file : String) (l : List CustomTextEditor) (k : Nat) :
    findOpen file l k = findPath file (l.map (fun e => e.mFilePath)) k := by
  induction l generalizing k with
  | nil => rfl
  | cons e es ih => simp only [findOpen, List.map_cons, findPath, ih]

theorem findPath_append (file : String) (ps qs : List String) (k i : Nat)
    (h : findPath file ps k = some i) : findPath file (ps ++ qs) k = some i := by
  induction ps generalizing k with
  | nil => simp [findPath] at h
  | cons p ps ih =>
    simp only [List.cons_append, findPath] at h ⊢
    by_cases hp : p = file
    · simpa [hp] using h
    · simp only [hp, if_false] at h ⊢
      exact ih (k + 1) h

theorem findPath_mem (file : String) (ps : List String) (k i : Nat)
    (h : findPath file ps k = some i) : file ∈ ps := by
  induction ps generalizing k with
  | nil => simp [findPath] at h
  | cons p ps ih =>
    simp only [findPath] at h
    by_cases hp : p = file
    · simp [hp]
    · simp only [hp, if_false] at h
      exact List.mem_cons_of_mem _ (ih (k + 1) h)

theorem filter_path_length (file : String) (l : List CustomTextEditor) :
    (l.filter (fun e => decide (e.mFilePath = file))).length =
      (l.map (fun e => e.mFilePath)).count file := by
  induction l with
  | nil => rfl
  | cons e es ih =>
    by_cases hp : e.mFilePath = file
    · simp [List.filter_cons, hp, ih]
    · simp [List.filter_cons, hp, ih, List.count_cons]

theorem paths_set (l : List CustomTextEditor) (i : Nat) (a e : CustomTextEditor)
    (h : l[i]? = some e) (hp : a.mFilePath = e.mFilePath) :
    (l.set i a).map (fun x => x.mFilePath) = l.map (fun x => x.mFilePath) := by
  induction l generalizing i with
  | nil => simp
  | cons x xs ih =>
    cases i with
    | zero =>
      simp at h
      simp [h, hp]
    | succ j =>
      simp at h
      simp [ih j h]

theorem saveAt_paths (w : World) (i : Nat) : openPaths (saveAt w i).2 = openPaths w := by
  unfold openPaths
  cases he : w.state.editors[i]? with
  | none => simp [saveAt, he]
  | some e =>
    rw [saveAt_eq w i e he]
    exact paths_set _ i _ e he (Save_path e w.host)

theorem markDirty_paths (w : World) (i : Nat) : openPaths (markDirty w i) = openPaths w := by
  unfold openPaths markDirty
  cases he : w.state.editors[i]? with
  | none => rfl
  | some e => exact paths_set _ i _ e he rfl

theorem editText_paths (w : World) (i : Nat) (t : String) :
    openPaths (editText w i t) = openPaths w := by
  unfold openPaths
  cases he : w.state.editors[i]? with
  | none => simp [editText, he]
  | some e =>
    rw [editText_eq w i t e he]
    exact paths_set _ i _ e he rfl

theorem saveAllDirty_paths (n i : Nat) (w : World) :
    openPaths (saveAllDirty n i w) = openPaths w := by
  induction n generalizing i w with
  | zero => rfl
  | succ n ih =>
    unfold saveAllDirty
    cases he : w.state.editors[i]? with
    | none => rfl
    | some e =>
      simp only [ih]
      split_ifs
      · exact saveAt_paths w i
      · rfl

theorem tabItem_paths (w : World) (i : Nat) (inp : TabInput) (hc : inp.closed = false) :
    openPaths (tabItem w i inp) = openPaths w := by
  unfold tabItem
  simp only [hc]
  cases hs : inp.selected with
  | false => rfl
  | true =>
    cases he : inp.edit with
    | none => rfl
    | some t =>
      simp only [if_true]
      rw [if_neg (by simp)]
      rw [editText_paths]
      rfl

theorem tabLoop_paths (n : Nat) (inputs : Nat → TabInput) (i : Nat) (w : World)
    (hc : ∀ k, (inputs k).closed = false) :
    openPaths (tabLoop n inputs i w) = openPaths w := by
  induction n generalizing inputs i w with
  | zero => rfl
  | succ n ih =>
    unfold tabLoop
    by_cases hi : i < w.state.editors.length
    · rw [if_pos hi]
      simp only
      rw [ih _ _ _ (fun k => hc (k + 1)), tabItem_paths w i _ (hc 0)]
    · rw [if_neg hi]

theorem noClose_paths (op : Op) (w w1 : World) (hn : op.noClose) (hr : op.run w = some w1) :
    openPaths w1 = openPaths w ∨
      ∃ g, g ∉ openPaths w ∧ openPaths w1 = openPaths w ++ [g] := by
  cases op with
  | openFile file =>
    simp [Op.run] at hr; subst hr
    unfold openFile
    cases hf : findOpen file w.state.editors 0 with
    | some i => left; rfl
    | none =>
      cases hread : w.host.fs.read file with
      | none => left; rfl
      | some str =>
        right
        refine ⟨file, ?_, ?_⟩
        · intro hm
          simp only [openPaths, List.mem_map] at hm
          obtain ⟨e, he, hp⟩ := hm
          exact (findOpen_none file _ 0).mp hf e he hp
        · simp [openPaths, CustomTextEditor.new, CustomTextEditor.SetText,
            CustomTextEditor.SetFilePath]
  | selectTab i =>
    simp [Op.run] at hr
    obtain ⟨_, rfl⟩ := hr
    left; rfl
  | markDirty i =>
    simp [Op.run] at hr
    obtain ⟨_, rfl⟩ := hr
    left; exact markDirty_paths w i
  | editText i t =>
    simp [Op.run] at hr
    obtain ⟨_, rfl⟩ := hr
    left; exact editText_paths w i t
  | save =>
    simp [Op.run] at hr; subst hr
    left
    unfold SaveCurrentFile
    split_ifs
    · exact saveAt_paths w _
    · rfl
  | closeTab i => exact absurd hn (by simp [Op.noClose])
  | build proc =>
    simp only [Op.run] at hr
    left
    rcases BuildProject_editors w w1 proc hr with h1 | h1
    · simp only [openPaths, h1]
    · have := saveAllDirty_paths w.state.editors.length 0 w
      simp only [openPaths] at this ⊢
      rw [h1, this]
  | frame inputs =>
    simp [Op.run] at hr; subst hr
    left
    unfold RenderEditorTabs
    split_ifs
    · rfl
    · exact tabLoop_paths _ _ _ _ hn
  | openProject path entries =>
    simp [Op.run] at hr; subst hr
    left
    simp only [openPaths, (openProject_shape w path entries).1]
  | clearConsole =>
    simp [Op.run] at hr; subst hr
    left; rfl

theorem noClose_run_keeps (file : String) (i : Nat) (ops : List Op) (w w2 : World)
    (hn : ∀ op ∈ ops, op.noClose) (hr : runOps ops w = some w2)
    (hf : findPath file (openPaths w) 0 = some i) :
    findPath file (openPaths w2) 0 = some i ∧
      (openPaths w2).count file = (openPaths w).count file := by
  induction ops generalizing w with
  | nil =>
    simp [runOps] at hr
    subst hr
    exact ⟨hf, rfl⟩
  | cons op ops ih =>
    unfold runOps at hr
    cases ho : op.run w with
    | none => simp [ho] at hr
    | some w1 =>
      simp only [ho] at hr
      have hstep : findPath file (openPaths w1) 0 = some i ∧
          (openPaths w1).count file = (openPaths w).count file := by
        rcases noClose_paths op w w1 (hn op (List.mem_cons_self _ _)) ho with h1 | ⟨g, hg, h1⟩
        · rw [h1]; exact ⟨hf, rfl⟩
        · rw [h1]
          refine ⟨findPath_append file _ _ 0 i hf, ?_⟩
          have hne : g ≠ file := fun e => hg (e ▸ findPath_mem file _ 0 i hf)
          simp [List.count_append, List.count_cons, hne]
      obtain ⟨a1, a2⟩ := ih w1 (fun o ho2 => hn o (List.mem_cons_of_mem _ ho2)) hr hstep.1
      exact ⟨a1, a2.trans hstep.2⟩

/-- C3: when the first open of `f` succeeds (a buffer bound to `f` exists,
or `f` can be read), it activates the index `i` of the buffer bound to
`f`; after any operations that close no tab (other opens, selections,
edits, saves, builds, scans, frames without a pressed close button), the
buffer bound to `f` is still at index `i`, and opening `f` again activates
that same index and leaves the buffer sequence as it was; if the registry
had at most one buffer bound to `f` before, it has exactly one
afterwards. -/
theorem open_twice_same_index (w : World) (f : String) (ops : List Op) (w2 : World)
    (hs : findOpen f w.state.editors 0 ≠ none ∨ w.host.fs.read f ≠ none)
    (hn : ∀ op ∈ ops, op.noClose)
    (hr : runOps ops (openFile w f) = some w2) :
    ∃ i : Nat,
      findOpen f (openFile w f).state.editors 0 = some i ∧
      (openFile w f).state.activeEditorIndex = (i : Int) ∧
      findOpen f w2.state.editors 0 = some i ∧
      (openFile w2 f).state.activeEditorIndex = (i : Int) ∧
      (openFile w2 f).state.editors = w2.state.editors ∧
      (openFile w2 f).state.editors.length = w2.state.editors.length ∧
      ((w.state.editors.filter (fun e => decide (e.mFilePath = f))).length ≤ 1 →
        ((openFile w2 f).state.editors.filter
          (fun e => decide (e.mFilePath = f))).length = 1) := by
  have second : ∀ (w1 : World) (i : Nat), findOpen f w1.state.editors 0 = some i →
      (openFile w1 f).state.activeEditorIndex = (i : Int) ∧
        (openFile w1 f).state.editors = w1.state.editors := by
    intro w1 i h1
    unfold openFile
    simp [h1]
  have first : ∃ i : Nat, findOpen f (openFile w f).state.editors 0 = some i ∧
      (openFile w f).state.activeEditorIndex = (i : Int) ∧
      ((w.state.editors.filter (fun e => decide (e.mFilePath = f))).length ≤ 1 →
        ((openFile w f).state.editors.filter
          (fun e => decide (e.mFilePath = f))).length = 1) := by
    cases hf : findOpen f w.state.editors 0 with
    | some i =>
      obtain ⟨a1, a2⟩ := second w i hf
      refine ⟨i, by rw [a2]; exact hf, a1, ?_⟩
      intro hc
      rw [a2]
      obtain ⟨e, hm, hp⟩ := findOpen_mem f _ 0 i hf
      have hpos : 0 < (w.state.editors.filter (fun e => decide (e.mFilePath = f))).length := by
        apply List.length_pos_of_mem (a := e)
        simp [List.mem_filter, hm, hp]
      omega
    | none =>
      have hread : w.host.fs.read f ≠ none := by
        rcases hs with h | h
        · exact absurd hf h
        · exact h
      obtain ⟨str, hstr⟩ := Option.ne_none_iff_exists'.mp hread
      have ho : (openFile w f).state.editors = w.state.editors ++
          [{ text := str, mFilePath := f, mIsDirty := false, savedText := str }] ∧
          (openFile w f).state.activeEditorIndex = (w.state.editors.length : Int) := by
        unfold openFile
        simp [hf, hstr, CustomTextEditor.new, CustomTextEditor.SetText,
          CustomTextEditor.SetFilePath]
      refine ⟨w.state.editors.length, ?_, ho.2, ?_⟩
      · rw [ho.1, findOpen_append_new f _ _ 0 hf rfl]
        simp
      · intro _
        rw [ho.1]
        have hnone : w.state.editors.filter (fun e => decide (e.mFilePath = f)) = [] := by
          rw [List.filter_eq_nil_iff]
          intro e he
          have := (findOpen_none f _ 0).mp hf e he
          simpa using this
        simp [List.filter_append, hnone]
  obtain ⟨i, h1, h2, h3⟩ := first
  have hp1 : findPath f (openPaths (openFile w f)) 0 = some i := by
    rw [← h1, findOpen_eq_findPath]
    rfl
  obtain ⟨k1, k2⟩ := noClose_run_keeps f i ops (openFile w f) w2 hn hr hp1
  have h4 : findOpen f w2.state.editors 0 = some i := by
    rw [findOpen_eq_findPath]
    exact k1
  obtain ⟨b1, b2⟩ := second w2 i h4
  refine ⟨i, h1, h2, h4, b1, b2, by rw [b2], ?_⟩
  intro hc
  have h5 := h3 hc
  rw [filter_path_length] at h5 ⊢
  rw [b2]
  exact k2.trans h5

/-- C3 at `demoOne`: `README.md` is opened at index 1; `notes.txt` is
opened, the first tab selected and typed into, and the file saved; opening
`README.md` again activates index 1 and the registry keeps its three
buffers. -/
theorem open_twice_same_index_witness :
    (findOpen "README.md" demoOne.state.editors 0 ≠ none ∨
      demoOne.host.fs.read "README.md" ≠ none) ∧
    (∀ op ∈ demoBetween, op.noClose) ∧
    runOps demoBetween (openFile demoOne "README.md") = some demoReopen ∧
    demoReopen.state.activeEditorIndex = 0 ∧
    (openFile demoReopen "README.md").state.activeEditorIndex = 1 ∧
    ∃ i : Nat,
      findOpen "README.md" (openFile demoOne "README.md").state.editors 0 = some i ∧
      (openFile demoOne "README.md").state.activeEditorIndex = (i : Int) ∧
      findOpen "README.md" demoReopen.state.editors 0 = some i ∧
      (openFile demoReopen "README.md").state.activeEditorIndex = (i : Int) ∧
      (openFile demoReopen "README.md").state.editors = demoReopen.state.editors ∧
      (openFile demoReopen "README.md").state.editors.length =
        demoReopen.state.editors.length ∧
      ((demoOne.state.editors.filter (fun e => decide (e.mFilePath = "README.md"))).length ≤ 1 →
        ((openFile demoReopen "README.md").state.editors.filter
          (fun e => decide (e.mFilePath = "README.md"))).length = 1) :=
  have hn : ∀ op ∈ demoBetween, op.noClose := by
    intro op hop
    simp only [demoBetween, List.mem_cons, List.mem_singleton, List.not_mem_nil, or_false] at hop
    rcases hop with rfl | rfl | rfl | rfl
    · trivial
    · trivial
    · intro k
      cases k <;> rfl
    · trivial
  ⟨by decide, hn, rfl, by decide, by decide,
    open_twice_same_index demoOne "README.md" demoBetween demoReopen (by decide) hn rfl⟩

/-- C4: opening a path `f` that no open buffer is bound to.  If `f` can be
read, exactly one buffer is appended after the existing ones, holding the
content read, bound to `f` and clean, and the active index is the new last
index; if `f` cannot be read, the buffers and the active index are as
before and the console holds the failure message naming `f`. -/
theorem open_unopened_file (w : World) (f : String)
    (hn : ∀ e ∈ w.state.editors, e.mFilePath ≠ f) :
    (∀ str, w.host.fs.read f = some str →
      (openFile w f).state.editors = w.state.editors ++
        [{ text := str, mFilePath := f, mIsDirty := false, savedText := str }] ∧
      (openFile w f).state.activeEditorIndex = ((openFile w f).state.editors.length : Int) - 1) ∧
    (w.host.fs.read f = none →
      (openFile w f).state.editors = w.state.editors ∧
      (openFile w f).state.activeEditorIndex = w.state.activeEditorIndex ∧
      (openFile w f).state.buildOutput = "Failed to open file: " ++ f ++ "\n") := by
  have hf := (findOpen_none f w.state.editors 0).mpr hn
  constructor
  · intro str hstr
    unfold openFile
    simp [hf, hstr, CustomTextEditor.new, CustomTextEditor.SetText, CustomTextEditor.SetFilePath]
  · intro hnone
    unfold openFile
    simp [hf, hnone]

/-- C4 at `demoOne`: `README.md` is readable and gets a second buffer,
`missing.cpp` is not and only leaves its message in the console. -/
theorem open_unopened_file_witness :
    (∀ e ∈ demoOne.state.editors, e.mFilePath ≠ "README.md") ∧
    (∀ e ∈ demoOne.state.editors, e.mFilePath ≠ "missing.cpp") ∧
    ((openFile demoOne "README.md").state.editors = demoOne.state.editors ++
        [{ text := "# LightEdit", mFilePath := "README.md", mIsDirty := false,
           savedText := "# LightEdit" }] ∧
      (openFile demoOne "README.md").state.activeEditorIndex =
        ((openFile demoOne "README.md").state.editors.length : Int) - 1) ∧
    ((openFile demoOne "missing.cpp").state.editors = demoOne.state.editors ∧
      (openFile demoOne "missing.cpp").state.activeEditorIndex = demoOne.state.activeEditorIndex ∧
      (openFile demoOne "missing.cpp").state.buildOutput =
        "Failed to open file: " ++ "missing.cpp" ++ "\n") :=
  ⟨by decide, by decide,
    (open_unopened_file demoOne "README.md" (by decide)).1 "# LightEdit" (by decide),
    (open_unopened_file demoOne "missing.cpp" (by decide)).2 (by decide)⟩

/-! ## Saving -/

theorem set_same (l : List CustomTextEditor) (i : Nat) (a : CustomTextEditor)
    (h : l[i]? = some a) : l.set i a = l := by
  induction l generalizing i with
  | nil => simp
  | cons x xs ih =>
    cases i with
    | zero =>
      simp at h
      simp [h]
    | succ j =>
      simp at h
      simp [ih j h]

/-- C5 fails as stated: on `fullFs` the file `src/main.cpp` opens for
writing but the device takes four characters only; `Save` on the edited
buffer still returns true, the action logs `Saved:` and the dirty flag is
cleared, while the file holds `int ` and not the text of the buffer. -/
theorem save_short_write_counterexample :
    demoEditedFull.state.activeEditorIndex = 0 ∧
    demoEditedFull.state.editors =
      [⟨"int main() { return 0; }", "src/main.cpp", true, "int main() {}"⟩] ∧
    demoEditedFull.host.fs.canWrite "src/main.cpp" = true ∧
    (SaveCurrentFile demoEditedFull).1 = true ∧
    (SaveCurrentFile demoEditedFull).2.state.buildOutput = "Saved: src/main.cpp\n" ∧
    (SaveCurrentFile demoEditedFull).2.state.editors.map (fun e => e.mIsDirty) = [false] ∧
    (SaveCurrentFile demoEditedFull).2.host.fs.read "src/main.cpp" = some "int " ∧
    (SaveCurrentFile demoEditedFull).2.host.fs.read "src/main.cpp" ≠
      some "int main() { return 0; }" := by
  decide

/-- C5 as amended: saving the active buffer `e` (index `i`).  When the
path is empty or the file cannot be opened for writing, `Save` returns
false and leaves the editor (its dirty flag included) and the file system
as they were, an empty path causing no attempt to open the file, and the
action appends `Failed to save: <filePath>`; otherwise `Save` writes the
text of the buffer without testing the outcome of the write, returns true,
the dirty flag is false and the action appends `Saved: <filePath>`; the
file then holds what the host stored of the text, which is the full text
when the write completed. -/
theorem save_active_file (w : World) (i : Nat) (e : CustomTextEditor)
    (hact : w.state.activeEditorIndex = (i : Int))
    (he : w.state.editors[i]? = some e) :
    ((e.mFilePath = "" ∨ w.host.fs.canWrite e.mFilePath = false) →
      (e.Save w.host).1 = false ∧
      (e.Save w.host).2.1 = e ∧
      (e.Save w.host).2.2.fs = w.host.fs ∧
      (e.mFilePath = "" →
        (e.Save w.host).2.2.trace = w.host.trace ++ [Event.saveCalled e.mFilePath]) ∧
      (SaveCurrentFile w).1 = false ∧
      (SaveCurrentFile w).2.state.editors = w.state.editors ∧
      (SaveCurrentFile w).2.state.buildOutput =
        w.state.buildOutput ++ ("Failed to save: " ++ e.mFilePath ++ "\n")) ∧
    ((e.mFilePath ≠ "" ∧ w.host.fs.canWrite e.mFilePath = true) →
      (e.Save w.host).1 = true ∧
      (e.Save w.host).2.1.mIsDirty = false ∧
      (e.Save w.host).2.1.text = e.text ∧
      (e.Save w.host).2.2.fs =
        w.host.fs.write e.mFilePath (w.host.fs.stored e.mFilePath e.text) ∧
      (e.Save w.host).2.2.fs.read e.mFilePath =
        some (w.host.fs.stored e.mFilePath e.text) ∧
      (w.host.fs.stored e.mFilePath e.text = e.text →
        (e.Save w.host).2.2.fs.read e.mFilePath = some e.text) ∧
      (SaveCurrentFile w).1 = true ∧
      (SaveCurrentFile w).2.state.editors =
        w.state.editors.set i { e with mIsDirty := false, savedText := e.text } ∧
      (SaveCurrentFile w).2.state.buildOutput =
        w.state.buildOutput ++ ("Saved: " ++ e.mFilePath ++ "\n")) := by
  have hi : i < w.state.editors.length := (List.getElem?_eq_some.mp he).1
  have hcur : SaveCurrentFile w = saveAt w i := by
    unfold SaveCurrentFile
    rw [hact]
    simp [hi]
  rw [hcur, saveAt_eq w i e he]
  constructor
  · intro hfail
    have hS : e.Save w.host =
        (false, e, if e.mFilePath = "" then w.host.emit (.saveCalled e.mFilePath)
          else (w.host.emit (.saveCalled e.mFilePath)).emit (.ofstream e.mFilePath false)) := by
      unfold CustomTextEditor.Save
      rcases hfail with h | h
      · simp [h]
      · by_cases hp : e.mFilePath = ""
        · simp [hp]
        · simp [hp, h]
    rw [hS]
    refine ⟨rfl, rfl, ?_, ?_, rfl, ?_, ?_⟩
    · split_ifs <;> rfl
    · intro hp
      simp [hp, Host.emit]
    · simp only
      exact set_same _ i e he
    · simp
  · rintro ⟨hp, hc⟩
    have hS : e.Save w.host =
        (true, { e with mIsDirty := false, savedText := e.text },
          { fs := w.host.fs.write e.mFilePath (w.host.fs.stored e.mFilePath e.text),
            trace := ((w.host.emit (.saveCalled e.mFilePath)).emit
              (.ofstream e.mFilePath true)).trace }) := by
      unfold CustomTextEditor.Save
      simp [hp, hc]
    rw [hS]
    refine ⟨rfl, rfl, rfl, rfl, ?_, ?_, rfl, rfl, ?_⟩
    · simp [FileSystem.write]
    · intro hst
      simp [FileSystem.write, hst]
    · simp

/-- C5 as amended, at three concrete worlds: `notes.txt`, the active
buffer of `demoThree`, cannot be written; `src/main.cpp`, the edited active
buffer of `demoEdited`, is written in full; on `fullFs` the same save
leaves `int ` in the file. -/
theorem save_active_file_witness :
    (demoThree.state.activeEditorIndex = ((2 : Nat) : Int) ∧
      demoThree.state.editors[2]? = some ⟨"todo", "notes.txt", false, "todo"⟩ ∧
      (SaveCurrentFile demoThree).1 = false ∧
      (SaveCurrentFile demoThree).2.state.editors = demoThree.state.editors ∧
      (SaveCurrentFile demoThree).2.state.buildOutput =
        demoThree.state.buildOutput ++ ("Failed to save: " ++ "notes.txt" ++ "\n")) ∧
    (demoEdited.state.activeEditorIndex = ((0 : Nat) : Int) ∧
      demoEdited.state.editors[0]? =
        some ⟨"int main() { return 0; }", "src/main.cpp", true, "int main() {}"⟩ ∧
      (SaveCurrentFile demoEdited).1 = true ∧
      ((⟨"int main() { return 0; }", "src/main.cpp", true, "int main() {}"⟩ :
        CustomTextEditor).Save demoEdited.host).2.2.fs.read "src/main.cpp" =
        some "int main() { return 0; }" ∧
      (SaveCurrentFile demoEdited).2.state.buildOutput =
        demoEdited.state.buildOutput ++ ("Saved: " ++ "src/main.cpp" ++ "\n")) ∧
    (demoEditedFull.state.activeEditorIndex = ((0 : Nat) : Int) ∧
      (SaveCurrentFile demoEditedFull).1 = true ∧
      ((⟨"int main() { return 0; }", "src/main.cpp", true, "int main() {}"⟩ :
        CustomTextEditor).Save demoEditedFull.host).2.2.fs.read "src/main.cpp" =
        some (demoEditedFull.host.fs.stored "src/main.cpp" "int main() { return 0; }")) :=
  have h1 := (save_active_file demoThree 2 ⟨"todo", "notes.txt", false, "todo"⟩
    (by decide) (by decide)).1 (Or.inr (by decide))
  have h2 := (save_active_file demoEdited 0
    ⟨"int main() { return 0; }", "src/main.cpp", true, "int main() {}"⟩
    (by decide) (by decide)).2 ⟨by decide, by decide⟩
  have h3 := (save_active_file demoEditedFull 0
    ⟨"int main() { return 0; }", "src/main.cpp", true, "int main() {}"⟩
    (by decide) (by decide)).2 ⟨by decide, by decide⟩
  ⟨⟨by decide, by decide, h1.2.2.2.2.1, h1.2.2.2.2.2.1, h1.2.2.2.2.2.2⟩,
    ⟨by decide, by decide, h2.2.2.2.2.2.2.1, h2.2.2.2.2.2.1 (by decide),
      h2.2.2.2.2.2.2.2.2⟩,
    ⟨by decide, h3.2.2.2.2.2.2.1, h3.2.2.2.2.1⟩⟩

/-! ## The dirty flag -/

theorem CleanMatch_set (l : List CustomTextEditor) (i : Nat) (a : CustomTextEditor)
    (h : CleanMatch l) (ha : a.mIsDirty = false → a.text = a.savedText) :
    CleanMatch (l.set i a) := by
  intro e he
  rcases List.mem_or_eq_of_mem_set he with h1 | h1
  · exact h e h1
  · subst h1; exact ha

theorem Save_clean (e : CustomTextEditor) (h : Host)
    (he : e.mIsDirty = false → e.text = e.savedText) :
    (e.Save h).2.1.mIsDirty = false → (e.Save h).2.1.text = (e.Save h).2.1.savedText := by
  unfold CustomTextEditor.Save
  by_cases h1 : e.mFilePath = "" <;> by_cases h2 : h.fs.canWrite e.mFilePath = true <;>
    simp [h1, h2] <;> exact he

theorem saveAt_CleanMatch (w : World) (i : Nat) (h : CleanMatch w.state.editors) :
    CleanMatch (saveAt w i).2.state.editors := by
  cases he : w.state.editors[i]? with
  | none => simpa [saveAt, he] using h
  | some e =>
    rw [saveAt_eq w i e he]
    exact CleanMatch_set _ _ _ h (Save_clean e w.host (h e (List.getElem?_mem he)))

theorem markDirty_CleanMatch (w : World) (i : Nat) (h : CleanMatch w.state.editors) :
    CleanMatch (markDirty w i).state.editors := by
  unfold markDirty
  cases he : w.state.editors[i]? with
  | none => exact h
  | some e =>
    exact CleanMatch_set _ _ _ h (by simp [CustomTextEditor.SetDirty])

theorem editText_CleanMatch (w : World) (i : Nat) (t : String) (h : CleanMatch w.state.editors) :
    CleanMatch (editText w i t).state.editors := by
  cases he : w.state.editors[i]? with
  | none => simpa [editText, he] using h
  | some e =>
    rw [editText_eq w i t e he]
    exact CleanMatch_set _ _ _ h (by simp)

theorem closeTab_CleanMatch (w : World) (i : Nat) (h : CleanMatch w.state.editors) :
    CleanMatch (closeTab w i).state.editors := by
  by_cases hi : i < w.state.editors.length
  · rw [closeTab_editors w i hi]
    intro e he
    exact h e (List.mem_of_mem_eraseIdx he)
  · have : w.state.editors[i]? = none := by simp; omega
    simpa [closeTab, this] using h

theorem saveAllDirty_CleanMatch (n i : Nat) (w : World) (h : CleanMatch w.state.editors) :
    CleanMatch (saveAllDirty n i w).state.editors := by
  induction n generalizing i w with
  | zero => simpa [saveAllDirty] using h
  | succ n ih =>
    unfold saveAllDirty
    cases he : w.state.editors[i]? with
    | none => exact h
    | some e =>
      apply ih
      split_ifs
      · exact saveAt_CleanMatch w i h
      · exact h

theorem tabItem_CleanMatch (w : World) (i : Nat) (inp : TabInput)
    (h : CleanMatch w.state.editors) : CleanMatch (tabItem w i inp).state.editors := by
  unfold tabItem
  have h1 : ∀ w0 : World, CleanMatch w0.state.editors →
      CleanMatch (if inp.closed then closeTab w0 i else w0).state.editors := by
    intro w0 h0
    split_ifs
    · exact closeTab_CleanMatch w0 i h0
    · exact h0
  apply h1
  cases hs : inp.selected with
  | false => simpa using h
  | true =>
    cases he : inp.edit with
    | none => simpa [selectTab] using h
    | some t =>
      simp only [if_true]
      apply editText_CleanMatch
      simpa [selectTab] using h

theorem tabLoop_CleanMatch (n : Nat) (inputs : Nat → TabInput) (i : Nat) (w : World)
    (h : CleanMatch w.state.editors) : CleanMatch (tabLoop n inputs i w).state.editors := by
  induction n generalizing inputs i w with
  | zero => simpa [tabLoop] using h
  | succ n ih =>
    unfold tabLoop
    by_cases hi : i < w.state.editors.length
    · rw [if_pos hi]
      exact ih _ _ _ (tabItem_CleanMatch w i _ h)
    · rw [if_neg hi]
      exact h

theorem openFile_CleanMatch (w : World) (file : String) (h : CleanMatch w.state.editors) :
    CleanMatch (openFile w file).state.editors := by
  unfold openFile
  cases hf : findOpen file w.state.editors 0 with
  | some i => exact h
  | none =>
    cases hr : w.host.fs.read file with
    | none => exact h
    | some str =>
      intro e he
      simp only [List.mem_append, List.mem_singleton] at he
      rcases he with h1 | h1
      · exact h e h1
      · subst h1
        simp [CustomTextEditor.new, CustomTextEditor.SetText, CustomTextEditor.SetFilePath]

theorem Op_run_CleanMatch (op : Op) (w w1 : World) (hr : op.run w = some w1)
    (h : CleanMatch w.state.editors) : CleanMatch w1.state.editors := by
  cases op with
  | openFile file =>
    simp [Op.run] at hr; subst hr; exact openFile_CleanMatch w file h
  | selectTab i =>
    simp [Op.run] at hr
    obtain ⟨_, rfl⟩ := hr
    exact h
  | markDirty i =>
    simp [Op.run] at hr
    obtain ⟨_, rfl⟩ := hr
    exact markDirty_CleanMatch w i h
  | editText i t =>
    simp [Op.run] at hr
    obtain ⟨_, rfl⟩ := hr
    exact editText_CleanMatch w i t h
  | save =>
    simp [Op.run] at hr; subst hr
    unfold SaveCurrentFile
    split_ifs
    · exact saveAt_CleanMatch w _ h
    · exact h
  | closeTab i =>
    simp [Op.run] at hr
    obtain ⟨_, rfl⟩ := hr
    exact closeTab_CleanMatch w i h
  | build proc =>
    simp only [Op.run] at hr
    rcases BuildProject_editors w w1 proc hr with h1 | h1
    · rw [h1]; exact h
    · rw [h1]; exact saveAllDirty_CleanMatch _ _ _ h
  | frame inputs =>
    simp [Op.run] at hr; subst hr
    unfold RenderEditorTabs
    split_ifs
    · exact h
    · exact tabLoop_CleanMatch _ _ _ _ h
  | openProject path entries =>
    simp [Op.run] at hr; subst hr
    rw [(openProject_shape w path entries).1]
    exact h
  | clearConsole =>
    simp [Op.run] at hr; subst hr
    exact h

/-! ## Traces of calls -/

theorem saveCalls_append (a b : List Event) : saveCalls (a ++ b) = saveCalls a ++ saveCalls b := by
  induction a with
  | nil => rfl
  | cons x xs ih => cases x <;> simp [saveCalls, ih]

theorem popenCalls_append (a b : List Event) :
    popenCalls (a ++ b) = popenCalls a ++ popenCalls b := by
  induction a with
  | nil => rfl
  | cons x xs ih => cases x <;> simp [popenCalls, ih]

theorem Save_trace (e : CustomTextEditor) (h : Host) :
    ∃ tail, (e.Save h).2.2.trace = h.trace ++ (Event.saveCalled e.mFilePath :: tail) ∧
      saveCalls tail = [] ∧ popenCalls tail = [] := by
  unfold CustomTextEditor.Save
  by_cases h1 : e.mFilePath = ""
  · exact ⟨[], by simp [h1, Host.emit], rfl, rfl⟩
  · by_cases h2 : h.fs.canWrite e.mFilePath = true
    · exact ⟨[.ofstream e.mFilePath true], by simp [h1, h2, Host.emit], rfl, rfl⟩
    · exact ⟨[.ofstream e.mFilePath false], by simp [h1, h2, Host.emit], rfl, rfl⟩

theorem saveAt_saveCalls (w : World) (i : Nat) (e : CustomTextEditor)
    (he : w.state.editors[i]? = some e) :
    saveCalls (saveAt w i).2.host.trace = saveCalls w.host.trace ++ [e.mFilePath] ∧
      popenCalls (saveAt w i).2.host.trace = popenCalls w.host.trace := by
  rw [saveAt_eq w i e he]
  obtain ⟨tail, h1, h2, h3⟩ := Save_trace e w.host
  simp only [h1]
  constructor
  · rw [saveCalls_append]
    simp [saveCalls, h2]
  · rw [popenCalls_append]
    simp [popenCalls, h3]

/-- C7: closing a valid tab `i` bound to editor `e` calls `Save` exactly
once on that editor when it is dirty and not at all when it is clean; in
both cases, and whatever the save returns, the resulting sequence is the
old one with element `i` deleted: one element shorter, the same before
`i`, shifted by one from `i` on. -/
theorem closeTab_saves_once_and_removes (w : World) (i : Nat) (e : CustomTextEditor)
    (he : w.state.editors[i]? = some e) :
    saveCalls (closeTab w i).host.trace =
      saveCalls w.host.trace ++ (if e.mIsDirty then [e.mFilePath] else []) ∧
    (closeTab w i).state.editors = w.state.editors.eraseIdx i ∧
    (closeTab w i).state.editors.length + 1 = w.state.editors.length ∧
    (∀ j, j < i → (closeTab w i).state.editors[j]? = w.state.editors[j]?) ∧
    (∀ j, i ≤ j → (closeTab w i).state.editors[j]? = w.state.editors[j + 1]?) := by
  have hi : i < w.state.editors.length := (List.getElem?_eq_some.mp he).1
  have hed := closeTab_editors w i hi
  refine ⟨?_, hed, ?_, ?_, ?_⟩
  · unfold closeTab
    rw [he]
    by_cases hd : e.mIsDirty = true
    · simp only [hd, if_true]
      exact (saveAt_saveCalls w i e he).1
    · simp [hd]
  · rw [hed, List.length_eraseIdx]
    simp only [hi, if_true]
    omega
  · intro j hj
    rw [hed, List.getElem?_eraseIdx_of_lt _ _ _ hj]
  · intro j hj
    rw [hed, List.getElem?_eraseIdx_of_ge _ _ _ hj]

/-- C7 at `demoThree` after typing into the second tab: closing that tab
makes one `Save` call, on `README.md`, and leaves the first and third
buffer. -/
theorem closeTab_saves_once_and_removes_witness :
    (editText demoThree 1 "# Light").state.editors[1]? =
      some ⟨"# Light", "README.md", true, "# LightEdit"⟩ ∧
    saveCalls (closeTab (editText demoThree 1 "# Light") 1).host.trace =
      saveCalls (editText demoThree 1 "# Light").host.trace ++ ["README.md"] ∧
    (closeTab (editText demoThree 1 "# Light") 1).state.editors =
      (editText demoThree 1 "# Light").state.editors.eraseIdx 1 :=
  have h := closeTab_saves_once_and_removes (editText demoThree 1 "# Light") 1
    ⟨"# Light", "README.md", true, "# LightEdit"⟩ (by decide)
  ⟨by decide, h.1, h.2.1⟩

/-- C8: with an empty project path `BuildProject` returns at once: the
result exists, the buffers (dirty flags included), the active index, the
directory tree, the file system and the trace of calls are as before (so no
save was attempted and no process spawned), and the console holds the line
`No project loaded`. -/
theorem build_without_project (w : World) (proc : ProcResult)
    (hp : w.state.projectPath = "") :
    ∃ w1, BuildProject w proc = some w1 ∧
      w1.state.editors = w.state.editors ∧
      w1.state.activeEditorIndex = w.state.activeEditorIndex ∧
      w1.state.projectRoot = w.state.projectRoot ∧
      w1.host = w.host ∧
      saveCalls w1.host.trace = saveCalls w.host.trace ∧
      popenCalls w1.host.trace = popenCalls w.host.trace ∧
      w1.state.buildOutput = "No project loaded\n" := by
  refine ⟨{ w with state := { w.state with buildOutput := "No project loaded\n" } }, ?_,
    rfl, rfl, rfl, rfl, rfl, rfl, rfl⟩
  unfold BuildProject
  simp [hp]

/-- C8 at `demoEdited`, which has a dirty buffer and no project. -/
theorem build_without_project_witness :
    demoEdited.state.projectPath = "" ∧
    ∃ w1, BuildProject demoEdited (.exited "done" 0 demoFs) = some w1 ∧
      w1.state.editors = demoEdited.state.editors ∧
      w1.state.activeEditorIndex = demoEdited.state.activeEditorIndex ∧
      w1.state.projectRoot = demoEdited.state.projectRoot ∧
      w1.host = demoEdited.host ∧
      saveCalls w1.host.trace = saveCalls demoEdited.host.trace ∧
      popenCalls w1.host.trace = popenCalls demoEdited.host.trace ∧
      w1.state.buildOutput = "No project loaded\n" :=
  ⟨by decide, build_without_project demoEdited (.exited "done" 0 demoFs) (by decide)⟩

/-! ## Building -/

theorem Save_fs (e : CustomTextEditor) (h : Host) :
    (e.Save h).2.2.fs.canWrite = h.fs.canWrite ∧
    (e.Save h).2.2.fs.canMkdir = h.fs.canMkdir ∧
    (∀ p, h.fs.isPresent p = true → (e.Save h).2.2.fs.isPresent p = true) := by
  unfold CustomTextEditor.Save
  by_cases h1 : e.mFilePath = ""
  · simp [h1, Host.emit]
  · by_cases h2 : h.fs.canWrite e.mFilePath = true
    · simp only [h1, h2, if_true, if_false, FileSystem.write, true_and]
      intro p hp
      split_ifs
      · rfl
      · exact hp
    · simp [h1, h2, Host.emit]

theorem saveAt_line (w : World) (i : Nat) (e : CustomTextEditor)
    (he : w.state.editors[i]? = some e) :
    (saveAt w i).2.state.buildOutput =
      w.state.buildOutput ++ saveLine w.host.fs.canWrite e := by
  rw [saveAt_eq w i e he]
  simp only [saveLine, Save_fst]
  by_cases h1 : e.mFilePath = "" <;> by_cases h2 : w.host.fs.canWrite e.mFilePath = true <;>
    simp [h1, h2]

theorem saveAt_frame (w : World) (i : Nat) (e : CustomTextEditor)
    (he : w.state.editors[i]? = some e) :
    (saveAt w i).2.state.editors = w.state.editors.set i (e.Save w.host).2.1 ∧
    (saveAt w i).2.state.projectPath = w.state.projectPath ∧
    (saveAt w i).2.state.projectRoot = w.state.projectRoot ∧
    (saveAt w i).2.host.fs.canWrite = w.host.fs.canWrite ∧
    (saveAt w i).2.host.fs.canMkdir = w.host.fs.canMkdir ∧
    (∀ p, w.host.fs.isPresent p = true → (saveAt w i).2.host.fs.isPresent p = true) := by
  rw [saveAt_eq w i e he]
  obtain ⟨h1, h2, h3⟩ := Save_fs e w.host
  exact ⟨rfl, rfl, rfl, h1, h2, h3⟩

theorem saveAllDirty_spec (n i : Nat) (w : World) (hn : i + n = w.state.editors.length) :
    (saveAllDirty n i w).state.buildOutput =
      w.state.buildOutput ++ saveLines w.host.fs.canWrite (w.state.editors.drop i) ∧
    saveCalls (saveAllDirty n i w).host.trace =
      saveCalls w.host.trace ++ dirtyPaths (w.state.editors.drop i) ∧
    popenCalls (saveAllDirty n i w).host.trace = popenCalls w.host.trace ∧
    (saveAllDirty n i w).state.projectPath = w.state.projectPath ∧
    (saveAllDirty n i w).host.fs.canMkdir = w.host.fs.canMkdir ∧
    (∀ p, w.host.fs.isPresent p = true →
      (saveAllDirty n i w).host.fs.isPresent p = true) := by
  induction n generalizing i w with
  | zero =>
    have : w.state.editors.drop i = [] := List.drop_eq_nil_of_le (by omega)
    simp [saveAllDirty, this, saveLines, dirtyPaths]
  | succ n ih =>
    have hi : i < w.state.editors.length := by omega
    have he : w.state.editors[i]? = some w.state.editors[i] := by simp [hi]
    have hdrop : w.state.editors.drop i = w.state.editors[i] :: w.state.editors.drop (i + 1) :=
      List.drop_eq_getElem_cons hi
    unfold saveAllDirty
    rw [he]
    simp only
    by_cases hd : (w.state.editors[i]).mIsDirty = true
    · simp only [hd, if_true]
      obtain ⟨f1, f2, _, f4, f5, f6⟩ := saveAt_frame w i _ he
      obtain ⟨g1, g2⟩ := saveAt_saveCalls w i _ he
      have hlen : i + 1 + n = (saveAt w i).2.state.editors.length := by
        rw [saveAt_length]; omega
      obtain ⟨a1, a2, a3, a4, a5, a6⟩ := ih (i + 1) (saveAt w i).2 hlen
      have hdrop2 : (saveAt w i).2.state.editors.drop (i + 1) = w.state.editors.drop (i + 1) := by
        rw [f1]
        exact List.drop_set_of_lt _ _ (by omega)
      rw [hdrop2] at a1 a2
      rw [f4] at a1
      refine ⟨?_, ?_, ?_, ?_, ?_, ?_⟩
      · rw [a1, saveAt_line w i _ he, hdrop]
        simp [saveLines, hd, String.append_assoc]
      · rw [a2, g1, hdrop]
        simp [dirtyPaths, hd]
      · rw [a3, g2]
      · rw [a4, f2]
      · rw [a5, f5]
      · intro p hp
        exact a6 p (f6 p hp)
    · rw [if_neg hd]
      obtain ⟨a1, a2, a3, a4, a5, a6⟩ := ih (i + 1) w (by omega)
      refine ⟨?_, ?_, a3, a4, a5, a6⟩
      · rw [a1, hdrop]
        simp [saveLines, hd]
      · rw [a2, hdrop]
        simp [dirtyPaths, hd]

theorem dirtyPaths_eq (l : List CustomTextEditor) :
    dirtyPaths l = (l.filter (fun e => e.mIsDirty)).map (fun e => e.mFilePath) := by
  induction l with
  | nil => rfl
  | cons e es ih =>
    by_cases hd : e.mIsDirty = true
    · simp [dirtyPaths, hd, ih]
    · simp [dirtyPaths, hd, ih]

/-- C9: a build with a project loaded, a build directory that exists or
can be created, and a pipeline that is launched and returns `returnCode`.
`Save` is called on exactly the dirty buffers, once each and in open order,
each outcome is logged, and all of this precedes the `popen` call, which is
the last call made, whatever the return code; the console then ends with
`Build succeeded!` when the return code is zero and with `Build failed!`
otherwise. -/
theorem build_saves_dirty_then_reports (w : World) (output : String) (returnCode : Int)
    (after : FileSystem) (hp : w.state.projectPath ≠ "")
    (hdir : w.host.fs.isPresent (w.state.projectPath ++ "/build") = true ∨
      w.host.fs.canMkdir (w.state.projectPath ++ "/build") = true) :
    ∃ w1, BuildProject w (.exited output returnCode after) = some w1 ∧
      saveCalls w1.host.trace = saveCalls w.host.trace ++
        (w.state.editors.filter (fun e => e.mIsDirty)).map (fun e => e.mFilePath) ∧
      (∃ before, w1.host.trace = before ++
          [Event.popen ("cd " ++ (w.state.projectPath ++ "/build") ++
            " && cmake .. && cmake --build .")] ∧
        saveCalls before = saveCalls w1.host.trace ∧
        popenCalls before = popenCalls w.host.trace) ∧
      w1.state.buildOutput =
        w.state.buildOutput ++ saveLines w.host.fs.canWrite w.state.editors ++
          "Building project...\n" ++ output ++
          (if returnCode = 0 then "Build succeeded!\n" else "Build failed!\n") ∧
      (returnCode = 0 → ∃ pre, w1.state.buildOutput = pre ++ "Build succeeded!\n") ∧
      (returnCode ≠ 0 → ∃ pre, w1.state.buildOutput = pre ++ "Build failed!\n") := by
  obtain ⟨a1, a2, a3, a4, a5, a6⟩ :=
    saveAllDirty_spec w.state.editors.length 0 w (by omega)
  simp only [List.drop_zero] at a1 a2
  rw [dirtyPaths_eq] at a2
  generalize hw1 : saveAllDirty w.state.editors.length 0 w = ws at a1 a2 a3 a4 a5 a6
  have hlog : ∀ (tr : List Event),
      saveCalls tr = saveCalls ws.host.trace → popenCalls tr = popenCalls ws.host.trace →
      ∃ w1, some ((World.log (World.log
          { state := (World.log ws "Building project...\n").state,
            host := { fs := after,
                      trace := tr ++ [Event.popen ("cd " ++ (w.state.projectPath ++ "/build") ++
                        " && cmake .. && cmake --build .")] } } output)
          (if returnCode = 0 then "Build succeeded!\n" else "Build failed!\n"))) = some w1 ∧
      saveCalls w1.host.trace = saveCalls w.host.trace ++
        (w.state.editors.filter (fun e => e.mIsDirty)).map (fun e => e.mFilePath) ∧
      (∃ before, w1.host.trace = before ++
          [Event.popen ("cd " ++ (w.state.projectPath ++ "/build") ++
            " && cmake .. && cmake --build .")] ∧
        saveCalls before = saveCalls w1.host.trace ∧
        popenCalls before = popenCalls w.host.trace) ∧
      w1.state.buildOutput =
        w.state.buildOutput ++ saveLines w.host.fs.canWrite w.state.editors ++
          "Building project...\n" ++ output ++
          (if returnCode = 0 then "Build succeeded!\n" else "Build failed!\n") ∧
      (returnCode = 0 → ∃ pre, w1.state.buildOutput = pre ++ "Build succeeded!\n") ∧
      (returnCode ≠ 0 → ∃ pre, w1.state.buildOutput = pre ++ "Build failed!\n") := by
    intro tr ht1 ht2
    refine ⟨_, rfl, ?_, ⟨tr, rfl, ?_, ?_⟩, ?_, ?_, ?_⟩
    · simp only [World.log, saveCalls_append, ht1, a2]
      simp [saveCalls]
    · simp only [World.log, saveCalls_append, ht1]
      simp [saveCalls]
    · rw [ht2, a3]
    · simp only [World.log, a1]
    · intro hz
      exact ⟨ws.state.buildOutput ++ "Building project...\n" ++ output,
        by simp only [World.log, hz, if_true]⟩
    · intro hz
      exact ⟨ws.state.buildOutput ++ "Building project...\n" ++ output,
        by simp only [World.log, hz, if_false]⟩
  unfold BuildProject
  simp only [hp, if_false, hw1]
  have hpath : (World.log ws "Building project...\n").state.projectPath = w.state.projectPath := by
    simp [World.log, a4]
  rw [hpath]
  by_cases hex : ws.host.fs.isPresent (w.state.projectPath ++ "/build") = true
  · have : (World.log ws "Building project...\n").host.fs.isPresent
        (w.state.projectPath ++ "/build") = true := hex
    simp only [this, if_true]
    exact hlog ws.host.trace rfl rfl
  · have hno : (World.log ws "Building project...\n").host.fs.isPresent
        (w.state.projectPath ++ "/build") = false := by
      simpa [World.log] using hex
    have hmk : (World.log ws "Building project...\n").host.fs.canMkdir
        (w.state.projectPath ++ "/build") = true := by
      rcases hdir with h | h
      · exact absurd (a6 _ h) hex
      · simp only [World.log, a5]; exact h
    simp only [hno, hmk, if_true, Bool.false_eq_true, if_false]
    exact hlog (ws.host.trace ++ [Event.createDirectory (w.state.projectPath ++ "/build")])
      (by simp [saveCalls_append, saveCalls]) (by simp [popenCalls_append, popenCalls])

/-- C9 at `demoProject`: two dirty buffers, of which `notes.txt` cannot be
written, no build directory yet, and a pipeline that returns 1. -/
theorem build_saves_dirty_then_reports_witness :
    demoProject.state.projectPath ≠ "" ∧
    (demoProject.host.fs.isPresent (demoProject.state.projectPath ++ "/build") = true ∨
      demoProject.host.fs.canMkdir (demoProject.state.projectPath ++ "/build") = true) ∧
    demoProject.state.editors.map (fun e => (e.mFilePath, e.mIsDirty)) =
      [("src/main.cpp", true), ("notes.txt", true)] ∧
    saveLines demoProject.host.fs.canWrite demoProject.state.editors =
      "Saved: src/main.cpp\nFailed to save: notes.txt\n" ∧
    ∃ w1, BuildProject demoProject (.exited "error: no CMakeLists.txt\n" 1 demoFs) = some w1 ∧
      saveCalls w1.host.trace = saveCalls demoProject.host.trace ++
        (demoProject.state.editors.filter (fun e => e.mIsDirty)).map (fun e => e.mFilePath) ∧
      (∃ before, w1.host.trace = before ++
          [Event.popen ("cd " ++ (demoProject.state.projectPath ++ "/build") ++
            " && cmake .. && cmake --build .")] ∧
        saveCalls before = saveCalls w1.host.trace ∧
        popenCalls before = popenCalls demoProject.host.trace) ∧
      w1.state.buildOutput =
        demoProject.state.buildOutput ++
          saveLines demoProject.host.fs.canWrite demoProject.state.editors ++
          "Building project...\n" ++ "error: no CMakeLists.txt\n" ++
          (if (1 : Int) = 0 then "Build succeeded!\n" else "Build failed!\n") ∧
      ((1 : Int) = 0 → ∃ pre, w1.state.buildOutput = pre ++ "Build succeeded!\n") ∧
      ((1 : Int) ≠ 0 → ∃ pre, w1.state.buildOutput = pre ++ "Build failed!\n") :=
  ⟨by decide, Or.inr (by decide), by decide, by decide,
    build_saves_dirty_then_reports demoProject "error: no CMakeLists.txt\n" 1 demoFs
      (by decide) (Or.inr (by decide))⟩

/-! ## The console log -/

theorem LogPrefix_refl (a : String) : LogPrefix a a := List.prefix_refl _

theorem LogPrefix_trans {a b c : String} (h1 : LogPrefix a b) (h2 : LogPrefix b c) :
    LogPrefix a c := List.IsPrefix.trans h1 h2

theorem LogPrefix_append (a t : String) : LogPrefix a (a ++ t) := by
  unfold LogPrefix
  rw [String.data_append]
  exact List.prefix_append _ _

theorem LogPrefix_of_eq {a b : String} (h : b = a) : LogPrefix a b := by
  rw [h]; exact LogPrefix_refl a

theorem saveAt_log (w : World) (i : Nat) :
    LogPrefix w.state.buildOutput (saveAt w i).2.state.buildOutput := by
  cases he : w.state.editors[i]? with
  | none => simp [saveAt, he, LogPrefix_refl]
  | some e =>
    rw [saveAt_line w i e he]
    exact LogPrefix_append _ _

theorem markDirty_log (w : World) (i : Nat) :
    (markDirty w i).state.buildOutput = w.state.buildOutput := by
  unfold markDirty
  cases h : w.state.editors[i]? <;> simp

theorem editText_log (w : World) (i : Nat) (t : String) :
    (editText w i t).state.buildOutput = w.state.buildOutput := by
  unfold editText
  cases h : w.state.editors[i]? <;> simp [markDirty_log]

theorem closeTab_log (w : World) (i : Nat) :
    LogPrefix w.state.buildOutput (closeTab w i).state.buildOutput := by
  unfold closeTab
  cases he : w.state.editors[i]? with
  | none => exact LogPrefix_refl _
  | some e =>
    by_cases hd : e.mIsDirty = true
    · simp only [hd, if_true]
      exact saveAt_log w i
    · simp only [hd]
      exact LogPrefix_refl _

theorem tabItem_log (w : World) (i : Nat) (inp : TabInput) :
    LogPrefix w.state.buildOutput (tabItem w i inp).state.buildOutput := by
  unfold tabItem
  have h1 : ∀ w0 : World, w0.state.buildOutput = w.state.buildOutput →
      LogPrefix w.state.buildOutput (if inp.closed then closeTab w0 i else w0).state.buildOutput := by
    intro w0 h0
    rw [← h0]
    split_ifs
    · exact closeTab_log w0 i
    · exact LogPrefix_refl _
  apply h1
  cases hs : inp.selected with
  | false => simp
  | true =>
    cases he : inp.edit with
    | none => simp [selectTab]
    | some t => simp [editText_log, selectTab]

theorem tabLoop_log (n : Nat) (inputs : Nat → TabInput) (i : Nat) (w : World) :
    LogPrefix w.state.buildOutput (tabLoop n inputs i w).state.buildOutput := by
  induction n generalizing inputs i w with
  | zero => simp [tabLoop, LogPrefix_refl]
  | succ n ih =>
    unfold tabLoop
    by_cases hi : i < w.state.editors.length
    · rw [if_pos hi]
      exact LogPrefix_trans (tabItem_log w i _) (ih _ _ _)
    · rw [if_neg hi]
      exact LogPrefix_refl _

theorem BuildProject_log (w w1 : World) (proc : ProcResult) (hp : w.state.projectPath ≠ "")
    (h : BuildProject w proc = some w1) :
    LogPrefix w.state.buildOutput w1.state.buildOutput := by
  obtain ⟨a1, _⟩ := saveAllDirty_spec w.state.editors.length 0 w (by omega)
  have hs : LogPrefix w.state.buildOutput
      (saveAllDirty w.state.editors.length 0 w).state.buildOutput := by
    rw [a1]; exact LogPrefix_append _ _
  unfold BuildProject at h
  simp only [hp, if_false] at h
  split at h
  · simp at h
  · rename_i w3 hm
    have h3 : w3.state = (World.log (saveAllDirty w.state.editors.length 0 w)
        "Building project...\n").state := by
      split_ifs at hm <;> simp at hm <;> subst hm <;> rfl
    have hb : LogPrefix w.state.buildOutput w3.state.buildOutput := by
      rw [h3]
      exact LogPrefix_trans hs (LogPrefix_append _ _)
    cases proc with
    | spawnFailed =>
      simp at h
      subst h
      exact LogPrefix_trans hb (LogPrefix_append _ _)
    | exited o rc a =>
      simp at h
      subst h
      exact LogPrefix_trans hb (LogPrefix_trans (LogPrefix_append _ _) (LogPrefix_append _ _))

/-- C10 fails as stated: after `Saved: src/main.cpp` was logged, opening an
unreadable file, building without a project and a failing scan each leave
a console of which the earlier text is not an initial part. -/
theorem log_append_only_counterexample :
    Reachable demoSaved ∧
    demoSaved.state.buildOutput = "Saved: src/main.cpp\n" ∧
    (openFile demoSaved "missing.cpp").state.buildOutput =
      "Failed to open file: missing.cpp\n" ∧
    ¬ LogPrefix demoSaved.state.buildOutput
      (openFile demoSaved "missing.cpp").state.buildOutput ∧
    (BuildProject demoSaved .spawnFailed).map (fun w => w.state.buildOutput) =
      some "No project loaded\n" ∧
    ¬ LogPrefix demoSaved.state.buildOutput "No project loaded\n" ∧
    (ScanProjectDirectory demoSaved "proj" [.error "permission denied"]).state.buildOutput =
      "Error scanning directory: permission denied\n" ∧
    ¬ LogPrefix demoSaved.state.buildOutput
      (ScanProjectDirectory demoSaved "proj" [.error "permission denied"]).state.buildOutput :=
  ⟨Reachable_runOps [.openFile "src/main.cpp", .editText 0 "int main() { return 0; }", .save]
      (World.initial demoFs) demoSaved (Reachable.init demoFs) rfl,
    by decide, by decide, by decide, by decide, by decide, by decide, by decide⟩

/-- C10 as amended: an operation other than clear-console either takes one
of the three error paths that assign to the console (opening an unreadable
file, a scan that throws, a build without a project), after which the
console is exactly the one error line, or leaves a console of which the
earlier text is an initial part. -/
theorem log_append_or_replace (op : Op) (w w1 : World) (hr : op.run w = some w1)
    (hc : op.isClear = false) :
    match op.replacement w with
    | some line => w1.state.buildOutput = line
    | none => LogPrefix w.state.buildOutput w1.state.buildOutput := by
  cases op with
  | openFile file =>
    simp [Op.run] at hr; subst hr
    unfold Op.replacement openFile
    cases hf : findOpen file w.state.editors 0 with
    | some i => simp [hf, LogPrefix_refl]
    | none =>
      cases hread : w.host.fs.read file with
      | some str => simp [hf, hread, LogPrefix_append, LogPrefix_refl]
      | none => simp [hf, hread]
  | selectTab i =>
    simp [Op.run] at hr
    obtain ⟨_, rfl⟩ := hr
    exact LogPrefix_refl _
  | markDirty i =>
    simp [Op.run] at hr
    obtain ⟨_, rfl⟩ := hr
    exact LogPrefix_of_eq (markDirty_log w i)
  | editText i t =>
    simp [Op.run] at hr
    obtain ⟨_, rfl⟩ := hr
    exact LogPrefix_of_eq (editText_log w i t)
  | save =>
    simp [Op.run] at hr; subst hr
    simp only [Op.replacement]
    unfold SaveCurrentFile
    split_ifs
    · exact saveAt_log w _
    · exact LogPrefix_refl _
  | closeTab i =>
    simp [Op.run] at hr
    obtain ⟨_, rfl⟩ := hr
    exact closeTab_log w i
  | build proc =>
    simp only [Op.run] at hr
    simp only [Op.replacement]
    by_cases hp : w.state.projectPath = ""
    · simp only [hp, if_true]
      unfold BuildProject at hr
      simp [hp] at hr
      subst hr
      rfl
    · simp only [hp, if_false]
      exact BuildProject_log w w1 proc hp hr
  | frame inputs =>
    simp [Op.run] at hr; subst hr
    simp only [Op.replacement]
    unfold RenderEditorTabs
    split_ifs
    · exact LogPrefix_refl _
    · exact tabLoop_log _ _ _ _
  | openProject path entries =>
    simp [Op.run] at hr; subst hr
    unfold Op.replacement openProject ScanProjectDirectory
    rcases hb : BuildDirectoryTree (DirectoryNode.mk (filename path) path [] []) entries with
      ⟨tree, _ | what⟩ <;> simp [hb, LogPrefix_refl]
  | clearConsole => simp [Op.isClear] at hc

/-- C10 as amended, at two concrete steps: the save shortcut on
`demoEdited` extends the console, opening the unreadable `missing.cpp`
afterwards replaces it by the error line. -/
theorem log_append_or_replace_witness :
    (Op.save.run demoEdited = some demoSaved ∧ Op.save.isClear = false ∧
      LogPrefix demoEdited.state.buildOutput demoSaved.state.buildOutput) ∧
    ((Op.openFile "missing.cpp").run demoSaved = some (openFile demoSaved "missing.cpp") ∧
      (Op.openFile "missing.cpp").isClear = false ∧
      (openFile demoSaved "missing.cpp").state.buildOutput =
        "Failed to open file: missing.cpp\n") :=
  ⟨⟨rfl, rfl, log_append_or_replace .save demoEdited demoSaved rfl rfl⟩,
    ⟨rfl, rfl,
      log_append_or_replace (.openFile "missing.cpp") demoSaved
        (openFile demoSaved "missing.cpp") rfl rfl⟩⟩

/-! ## The iteration bound of the tab loop -/

theorem tabItem_length (w : World) (i : Nat) (inp : TabInput) (hi : i < w.state.editors.length) :
    (tabItem w i inp).state.editors.length =
      if inp.closed then w.state.editors.length - 1 else w.state.editors.length := by
  unfold tabItem
  have h1 : ∀ w0 : World, w0.state.editors.length = w.state.editors.length →
      (if inp.closed then closeTab w0 i else w0).state.editors.length =
        if inp.closed then w.state.editors.length - 1 else w.state.editors.length := by
    intro w0 h0
    by_cases hc : inp.closed = true
    · simp only [hc, if_true]
      rw [closeTab_editors w0 i (by omega), List.length_eraseIdx, h0]
      simp [hi]
    · simp only [hc]
      simpa using h0
  apply h1
  cases hs : inp.selected with
  | false => simp
  | true =>
    cases he : inp.edit with
    | none => simp [selectTab]
    | some t => simp [editText_length, selectTab]

theorem tabLoop_fuel (n m : Nat) (inputs : Nat → TabInput) (i : Nat) (w : World)
    (h : w.state.editors.length - i ≤ n) (hm : n ≤ m) :
    tabLoop m inputs i w = tabLoop n inputs i w := by
  induction n generalizing m inputs i w with
  | zero =>
    have hi : ¬ i < w.state.editors.length := by omega
    cases m with
    | zero => rfl
    | succ k => simp [tabLoop, hi]
  | succ n ih =>
    cases m with
    | zero => omega
    | succ k =>
      unfold tabLoop
      by_cases hi : i < w.state.editors.length
      · rw [if_pos hi, if_pos hi]
        apply ih
        · have hl := tabItem_length w i (inputs 0) hi
          by_cases hc : (inputs 0).closed = true
          · simp only [hc, if_true] at hl ⊢
            omega
          · simp only [hc] at hl ⊢
            simp at hl ⊢
            omega
        · omega
      · rw [if_neg hi, if_neg hi]

/-! ## The directory scanner -/

theorem char_eq_of_toNat {a b : Char} (h : a.toNat = b.toNat) : a = b := by
  apply Char.ext
  apply UInt32.ext
  exact h

theorem strLt_irrefl (a : List Char) : strLt a a = false := by
  induction a with
  | nil => rfl
  | cons x xs ih => simp [strLt, ih]

theorem strLt_trichotomy (a b : List Char) (h1 : strLt a b = false) (h2 : a ≠ b) :
    strLt b a = true := by
  induction a generalizing b with
  | nil =>
    cases b with
    | nil => exact absurd rfl h2
    | cons y ys => simp [strLt] at h1
  | cons x xs ih =>
    cases b with
    | nil => simp [strLt]
    | cons y ys =>
      unfold strLt at h1 ⊢
      by_cases hxy : x.toNat < y.toNat
      · simp [hxy] at h1
      · by_cases hyx : y.toNat < x.toNat
        · simp [hyx]
        · simp only [hxy, hyx, if_false] at h1 ⊢
          have hx : x = y := char_eq_of_toNat (by omega)
          subst hx
          exact ih ys h1 (fun h => h2 (by rw [h]))

theorem strLt_trans (a b c : List Char) (h1 : strLt a b = true) (h2 : strLt b c = true) :
    strLt a c = true := by
  induction a generalizing b c with
  | nil =>
    cases c with
    | nil => cases b <;> simp [strLt] at h2
    | cons z zs => simp [strLt]
  | cons x xs ih =>
    cases b with
    | nil => simp [strLt] at h1
    | cons y ys =>
      cases c with
      | nil => simp [strLt] at h2
      | cons z zs =>
        unfold strLt at h1 h2 ⊢
        by_cases hxy : x.toNat < y.toNat
        · by_cases hyz : y.toNat < z.toNat
          · have : x.toNat < z.toNat := by omega
            simp [this]
          · by_cases hzy : z.toNat < y.toNat
            · simp [hyz, hzy] at h2
            · have : x.toNat < z.toNat := by omega
              simp [this]
        · by_cases hyx : y.toNat < x.toNat
          · simp [hxy, hyx] at h1
          · simp only [hxy, hyx, if_false] at h1
            by_cases hyz : y.toNat < z.toNat
            · have : x.toNat < z.toNat := by omega
              simp [this]
            · by_cases hzy : z.toNat < y.toNat
              · simp [hyz, hzy] at h2
              · simp only [hyz, hzy, if_false] at h2
                have e1 : ¬ x.toNat < z.toNat := by omega
                have e2 : ¬ z.toNat < x.toNat := by omega
                simp only [e1, e2, if_false]
                exact ih ys zs h1 h2
mutual
theorem quiet_entry_no_throw (root : DirectoryNode) :
    (e : FsEntry) → FsEntry.quiet e = true → (BuildDirectoryTree.entry root e).2 = none
  | .dir path entries, h => by
    unfold FsEntry.quiet at h
    unfold BuildDirectoryTree.entry
    simp only
    exact quiet_list_no_throw _ entries h
  | .file path, _ => by
    unfold BuildDirectoryTree.entry
    split_ifs <;> rfl
  | .other _, _ => by
    unfold BuildDirectoryTree.entry
    rfl
  | .error _, h => by
    unfold FsEntry.quiet at h
    simp at h
theorem quiet_list_no_throw (root : DirectoryNode) :
    (es : List FsEntry) → FsEntry.allQuiet es = true → (BuildDirectoryTree root es).2 = none
  | [], _ => by
    unfold BuildDirectoryTree
    rfl
  | e :: rest, h => by
    unfold FsEntry.allQuiet at h
    simp only [Bool.and_eq_true] at h
    have h1 := quiet_entry_no_throw root e h.1
    unfold BuildDirectoryTree
    rcases hb : BuildDirectoryTree.entry root e with ⟨r, thrown⟩
    rw [hb] at h1
    simp only at h1
    subst h1
    simp only
    exact quiet_list_no_throw r rest h.2
end

theorem mapFind_fresh (k : String) (m : List (String × DirectoryNode))
    (h : ∀ p ∈ m, p.1 ≠ k) : mapFind k m = none := by
  induction m with
  | nil => rfl
  | cons p rest ih =>
    obtain ⟨k1, v1⟩ := p
    have h1 : k1 ≠ k := h (k1, v1) (List.mem_cons_self _ _)
    simp only [mapFind, h1, if_false]
    exact ih (fun q hq => h q (List.mem_cons_of_mem _ hq))

theorem mapInsert_perm (k : String) (v : DirectoryNode) (m : List (String × DirectoryNode))
    (h : ∀ p ∈ m, p.1 ≠ k) : (mapInsert k v m).Perm (m ++ [(k, v)]) := by
  induction m with
  | nil => exact List.Perm.refl _
  | cons p rest ih =>
    obtain ⟨k1, v1⟩ := p
    have h1 : k1 ≠ k := h (k1, v1) (List.mem_cons_self _ _)
    have h2 : ¬ k = k1 := fun e => h1 e.symm
    unfold mapInsert
    by_cases hlt : strLt k.data k1.data = true
    · rw [if_pos hlt]
      exact (List.perm_append_singleton (k, v) ((k1, v1) :: rest)).symm
    · rw [if_neg hlt, if_neg h2]
      exact List.Perm.cons _ (ih (fun q hq => h q (List.mem_cons_of_mem _ hq)))

theorem mapInsert_increasing (k : String) (v : DirectoryNode)
    (m : List (String × DirectoryNode)) (hs : KeysIncreasing m) (h : ∀ p ∈ m, p.1 ≠ k) :
    KeysIncreasing (mapInsert k v m) := by
  induction m with
  | nil => simp [mapInsert, KeysIncreasing]
  | cons p rest ih =>
    obtain ⟨k1, v1⟩ := p
    have h1 : k1 ≠ k := h (k1, v1) (List.mem_cons_self _ _)
    have h2 : ¬ k = k1 := fun e => h1 e.symm
    have hrest : ∀ q ∈ rest, q.1 ≠ k := fun q hq => h q (List.mem_cons_of_mem _ hq)
    unfold KeysIncreasing at hs ih ⊢
    rw [List.pairwise_cons] at hs
    unfold mapInsert
    by_cases hlt : strLt k.data k1.data = true
    · rw [if_pos hlt, List.pairwise_cons]
      refine ⟨?_, List.pairwise_cons.mpr hs⟩
      intro q hq
      rcases List.mem_cons.mp hq with rfl | hq
      · exact hlt
      · exact strLt_trans _ _ _ hlt (hs.1 q hq)
    · rw [if_neg hlt, if_neg h2, List.pairwise_cons]
      refine ⟨?_, ih hs.2 hrest⟩
      intro q hq
      have hq2 : q ∈ rest ++ [(k, v)] := (mapInsert_perm k v rest hrest).mem_iff.mp hq
      rcases List.mem_append.mp hq2 with hq3 | hq3
      · exact hs.1 q hq3
      · rw [List.mem_singleton] at hq3
        subst hq3
        apply strLt_trichotomy
        · simpa using hlt
        · intro e
          exact h2 (String.ext e)

theorem entry_dir_fresh (root : DirectoryNode) (path : String) (sub : List FsEntry)
    (hk : ∀ p ∈ root.subdirectories, p.1 ≠ filename path) :
    BuildDirectoryTree.entry root (.dir path sub) =
      (DirectoryNode.mk root.name root.fullPath
        (mapInsert (filename path)
          (BuildDirectoryTree (DirectoryNode.mk (filename path) path [] []) sub).1
          root.subdirectories) root.files,
        (BuildDirectoryTree (DirectoryNode.mk (filename path) path [] []) sub).2) := by
  unfold BuildDirectoryTree.entry
  simp only [mapFind_fresh _ _ hk]
  rfl

theorem walk_spec (entries : List FsEntry) (root : DirectoryNode)
    (hq : FsEntry.allQuiet entries = true)
    (hnd : (listedDirNames entries).Nodup)
    (hfresh : ∀ p ∈ root.subdirectories, p.1 ∉ listedDirNames entries)
    (hs : KeysIncreasing root.subdirectories) :
    (BuildDirectoryTree root entries).2 = none ∧
    (BuildDirectoryTree root entries).1.name = root.name ∧
    (BuildDirectoryTree root entries).1.fullPath = root.fullPath ∧
    (BuildDirectoryTree root entries).1.files = root.files ++ listedFiles entries ∧
    (BuildDirectoryTree root entries).1.subdirectories.Perm
      (root.subdirectories ++ listedDirs entries) ∧
    KeysIncreasing (BuildDirectoryTree root entries).1.subdirectories := by
  induction entries generalizing root with
  | nil =>
    unfold BuildDirectoryTree
    simp [listedFiles, listedDirs, hs]
  | cons e rest ih =>
    unfold FsEntry.allQuiet at hq
    simp only [Bool.and_eq_true] at hq
    unfold BuildDirectoryTree
    cases e with
    | dir path sub =>
      unfold FsEntry.quiet at hq
      simp only [listedDirNames, List.nodup_cons] at hnd
      have hk : ∀ p ∈ root.subdirectories, p.1 ≠ filename path := by
        intro p hp e
        exact hfresh p hp (by simp [listedDirNames, e])
      have hsub := quiet_list_no_throw
        (DirectoryNode.mk (filename path) path [] []) sub hq.1
      rw [entry_dir_fresh root path sub hk, hsub]
      simp only
      generalize hb : (BuildDirectoryTree (DirectoryNode.mk (filename path) path [] []) sub).1
        = child
      obtain ⟨a1, a2, a3, a4, a5, a6⟩ := ih
        (DirectoryNode.mk root.name root.fullPath
          (mapInsert (filename path) child root.subdirectories) root.files)
        hq.2 hnd.2
        (by
          intro p hp hmem
          have hp2 := (mapInsert_perm _ child _ hk).mem_iff.mp hp
          rcases List.mem_append.mp hp2 with h1 | h1
          · exact hfresh p h1 (by simp [listedDirNames, hmem])
          · rw [List.mem_singleton] at h1
            subst h1
            exact hnd.1 hmem)
        (mapInsert_increasing _ child _ hs hk)
      have hl : listedDirs (FsEntry.dir path sub :: rest) =
          (filename path, child) :: listedDirs rest := by
        simp only [listedDirs, hb]
      rw [hl]
      refine ⟨a1, a2, a3, a4, ?_, a6⟩
      refine a5.trans ?_
      show (mapInsert (filename path) child root.subdirectories ++ listedDirs rest).Perm _
      refine ((mapInsert_perm _ child _ hk).append_right _).trans ?_
      exact List.Perm.of_eq (by simp)
    | file path =>
      unfold BuildDirectoryTree.entry
      by_cases hw : whitelisted (extension path) = true
      · rw [if_pos hw]
        obtain ⟨a1, a2, a3, a4, a5, a6⟩ := ih
          (DirectoryNode.mk root.name root.fullPath root.subdirectories (root.files ++ [path]))
          hq.2 (by simpa [listedDirNames] using hnd)
          (by intro p hp; simpa [listedDirNames] using hfresh p hp) hs
        refine ⟨a1, a2, a3, ?_, ?_, a6⟩
        · rw [a4]
          simp [DirectoryNode.files, listedFiles, hw]
        · simpa [listedDirs] using a5
      · rw [if_neg hw]
        obtain ⟨a1, a2, a3, a4, a5, a6⟩ := ih root hq.2
          (by simpa [listedDirNames] using hnd)
          (by intro p hp; simpa [listedDirNames] using hfresh p hp) hs
        refine ⟨a1, a2, a3, ?_, ?_, a6⟩
        · rw [a4]
          simp [listedFiles, hw]
        · simpa [listedDirs] using a5
    | other path =>
      unfold BuildDirectoryTree.entry
      obtain ⟨a1, a2, a3, a4, a5, a6⟩ := ih root hq.2
        (by simpa [listedDirNames] using hnd)
        (by intro p hp; simpa [listedDirNames] using hfresh p hp) hs
      refine ⟨a1, a2, a3, ?_, ?_, a6⟩
      · rw [a4]
        simp [listedFiles]
      · simpa [listedDirs] using a5
    | error what =>
      unfold FsEntry.quiet at hq
      simp at hq

theorem whitelisted_iff (ext : String) :
    whitelisted ext = true ↔ ext ∈ [".cpp", ".h", ".hpp", ".c", ".txt", ".md"] := by
  simp [whitelisted, or_assoc]

theorem mem_listedFiles (p : String) (es : List FsEntry) :
    p ∈ listedFiles es ↔ FsEntry.file p ∈ es ∧ whitelisted (extension p) = true := by
  induction es with
  | nil => simp [listedFiles]
  | cons e rest ih =>
    cases e with
    | file q =>
      have hcons : FsEntry.file p ∈ FsEntry.file q :: rest ↔ p = q ∨ FsEntry.file p ∈ rest := by
        simp [List.mem_cons]
      rw [hcons]
      unfold listedFiles
      by_cases hw : whitelisted (extension q) = true
      · rw [if_pos hw, List.mem_cons, ih]
        constructor
        · rintro (h | h)
          · subst h; exact ⟨Or.inl rfl, hw⟩
          · exact ⟨Or.inr h.1, h.2⟩
        · rintro ⟨h | h, h2⟩
          · exact Or.inl h
          · exact Or.inr ⟨h, h2⟩
      · rw [if_neg hw, ih]
        constructor
        · rintro ⟨h1, h2⟩
          exact ⟨Or.inr h1, h2⟩
        · rintro ⟨h | h, h2⟩
          · subst h; exact absurd h2 hw
          · exact ⟨h, h2⟩
    | dir q sub => simp [listedFiles, ih]
    | other q => simp [listedFiles, ih]
    | error what => simp [listedFiles, ih]

theorem listedDirs_keys (es : List FsEntry) :
    (listedDirs es).map (fun p => p.1) = listedDirNames es := by
  induction es with
  | nil => rfl
  | cons e rest ih => cases e <;> simp [listedDirs, listedDirNames, ih]

/-- C11 fails as stated: in `lockedListing` the regular file `main.cpp` has
a whitelisted extension, but the subdirectory enumerated before it cannot
be read, the walk ends there, and the resulting node has no files; the
console holds the error line. -/
theorem scan_unreadable_subdirectory_counterexample :
    listedFiles lockedListing = ["proj/main.cpp"] ∧
    (ScanProjectDirectory (World.initial demoFs) "proj" lockedListing).state.projectRoot.files
      = [] ∧
    (ScanProjectDirectory (World.initial demoFs) "proj"
      lockedListing).state.projectRoot.subdirectories.map (fun p => p.1) = ["locked"] ∧
    (ScanProjectDirectory (World.initial demoFs) "proj" lockedListing).state.buildOutput =
      "Error scanning directory: permission denied\n" := by
  decide

theorem walk_cons_none (root r : DirectoryNode) (e : FsEntry) (rest : List FsEntry)
    (h : BuildDirectoryTree.entry root e = (r, none)) :
    BuildDirectoryTree root (e :: rest) = BuildDirectoryTree r rest := by
  rw [BuildDirectoryTree, h]

theorem walk_cons_some (root r : DirectoryNode) (e : FsEntry) (rest : List FsEntry)
    (what : String) (h : BuildDirectoryTree.entry root e = (r, some what)) :
    BuildDirectoryTree root (e :: rest) = (r, some what) := by
  rw [BuildDirectoryTree, h]

theorem walk_append_quiet (root : DirectoryNode) (pre rest : List FsEntry)
    (hq : FsEntry.allQuiet pre = true) :
    BuildDirectoryTree root (pre ++ rest) =
      BuildDirectoryTree (BuildDirectoryTree root pre).1 rest := by
  induction pre generalizing root with
  | nil =>
    have : BuildDirectoryTree root [] = (root, none) := by rw [BuildDirectoryTree]
    rw [this]
    rfl
  | cons e pre ih =>
    unfold FsEntry.allQuiet at hq
    simp only [Bool.and_eq_true] at hq
    have h1 := quiet_entry_no_throw root e hq.1
    rcases hb : BuildDirectoryTree.entry root e with ⟨r, thrown⟩
    rw [hb] at h1
    simp only at h1
    subst h1
    rw [List.cons_append, walk_cons_none root r e _ hb, walk_cons_none root r e _ hb]
    exact ih r hq.2

mutual
theorem loud_entry_throws (root : DirectoryNode) :
    (e : FsEntry) → FsEntry.quiet e = false →
      ∃ what, (BuildDirectoryTree.entry root e).2 = some what
  | .dir path entries, h => by
    unfold FsEntry.quiet at h
    unfold BuildDirectoryTree.entry
    simp only
    exact loud_list_throws _ entries h
  | .file path, h => by
    unfold FsEntry.quiet at h
    simp at h
  | .other _, h => by
    unfold FsEntry.quiet at h
    simp at h
  | .error what, _ => by
    unfold BuildDirectoryTree.entry
    exact ⟨what, rfl⟩
theorem loud_list_throws (root : DirectoryNode) :
    (es : List FsEntry) → FsEntry.allQuiet es = false →
      ∃ what, (BuildDirectoryTree root es).2 = some what
  | [], h => by
    unfold FsEntry.allQuiet at h
    simp at h
  | e :: rest, h => by
    unfold FsEntry.allQuiet at h
    rcases hb : BuildDirectoryTree.entry root e with ⟨r, _ | what⟩
    · rw [walk_cons_none root r e rest hb]
      apply loud_list_throws r rest
      by_cases hq : FsEntry.quiet e = true
      · simpa [hq] using h
      · have := loud_entry_throws root e (by simpa using hq)
        rw [hb] at this
        simp at this
    · rw [walk_cons_some root r e rest what hb]
      exact ⟨what, rfl⟩
end

theorem entry_files (root : DirectoryNode) (e : FsEntry) :
    (BuildDirectoryTree.entry root e).1.files =
      root.files ++ listedFiles [e] := by
  cases e with
  | dir path sub =>
    unfold BuildDirectoryTree.entry
    simp [listedFiles, DirectoryNode.files]
  | file path =>
    unfold BuildDirectoryTree.entry
    by_cases hw : whitelisted (extension path) = true
    · rw [if_pos hw]
      simp [listedFiles, hw, DirectoryNode.files]
    · rw [if_neg hw]
      simp [listedFiles, hw]
  | other path =>
    unfold BuildDirectoryTree.entry
    simp [listedFiles]
  | error what =>
    unfold BuildDirectoryTree.entry
    simp [listedFiles]

theorem listedFiles_cons (e : FsEntry) (rest : List FsEntry) :
    listedFiles (e :: rest) = listedFiles [e] ++ listedFiles rest := by
  cases e with
  | file path =>
    by_cases hw : whitelisted (extension path) = true
    · simp [listedFiles, hw]
    · simp [listedFiles, hw]
  | dir path sub => simp [listedFiles]
  | other path => simp [listedFiles]
  | error what => simp [listedFiles]

theorem walk_files (es : List FsEntry) (root : DirectoryNode)
    (hq : FsEntry.allQuiet es = true) :
    (BuildDirectoryTree root es).1.files = root.files ++ listedFiles es := by
  induction es generalizing root with
  | nil =>
    have : BuildDirectoryTree root [] = (root, none) := by rw [BuildDirectoryTree]
    rw [this]
    simp [listedFiles]
  | cons e rest ih =>
    unfold FsEntry.allQuiet at hq
    simp only [Bool.and_eq_true] at hq
    have h1 := quiet_entry_no_throw root e hq.1
    have h2 := entry_files root e
    rcases hb : BuildDirectoryTree.entry root e with ⟨r, thrown⟩
    rw [hb] at h1 h2
    simp only at h1 h2
    subst h1
    rw [walk_cons_none root r e rest hb, ih r hq.2, h2, listedFiles_cons e rest,
      List.append_assoc]

theorem walk_stops_at_throw (root : DirectoryNode) (pre post : List FsEntry) (e : FsEntry)
    (hq : FsEntry.allQuiet pre = true) (he : FsEntry.quiet e = false) :
    BuildDirectoryTree root (pre ++ e :: post) = BuildDirectoryTree root (pre ++ [e]) ∧
    (∃ what, (BuildDirectoryTree root (pre ++ e :: post)).2 = some what) ∧
    (BuildDirectoryTree root (pre ++ e :: post)).1.files = root.files ++ listedFiles pre := by
  obtain ⟨what, hw⟩ := loud_entry_throws (BuildDirectoryTree root pre).1 e he
  have hf := entry_files (BuildDirectoryTree root pre).1 e
  have hl : listedFiles [e] = [] := by
    cases e with
    | file path => unfold FsEntry.quiet at he; simp at he
    | dir path sub => simp [listedFiles]
    | other path => simp [listedFiles]
    | error what => simp [listedFiles]
  rcases hb : BuildDirectoryTree.entry (BuildDirectoryTree root pre).1 e with ⟨r, thrown⟩
  rw [hb] at hw hf
  simp only at hw hf
  subst hw
  rw [walk_append_quiet root pre _ hq, walk_append_quiet root pre _ hq,
    walk_cons_some _ r e post what hb, walk_cons_some _ r e [] what hb]
  refine ⟨rfl, ⟨what, rfl⟩, ?_⟩
  simp only
  rw [hf, hl, walk_files pre root hq, List.append_nil]

/-- C11 as amended: for every listing whose enumeration, and that of
everything below it, does not throw, the scan leaves the console as it was
and the resulting node lists exactly the regular-file entries with an
extension among `.cpp`, `.h`, `.hpp`, `.c`, `.txt`, `.md`, in enumeration
order; when its subdirectories have distinct names, the child map has
exactly one entry per subdirectory entry, keyed by the directory's name and
holding the scan of that subdirectory, and is iterated in increasing key
order.  When the entry `e` enumerated after such a listing throws (the
iterator fails there, or `e` is a subdirectory whose enumeration throws),
the walk ends at `e`: the entries `post` after it change nothing, the node
lists the files enumerated before `e` only, and the console is replaced by
the error line. -/
theorem scan_files_and_children (w : World) (path : String) (entries post : List FsEntry)
    (e : FsEntry) (hq : FsEntry.allQuiet entries = true) :
    (ScanProjectDirectory w path entries).state.buildOutput = w.state.buildOutput ∧
    (ScanProjectDirectory w path entries).state.projectRoot.files = listedFiles entries ∧
    (∀ p, p ∈ (ScanProjectDirectory w path entries).state.projectRoot.files ↔
      (FsEntry.file p ∈ entries ∧
        extension p ∈ [".cpp", ".h", ".hpp", ".c", ".txt", ".md"])) ∧
    ((listedDirNames entries).Nodup →
      (ScanProjectDirectory w path entries).state.projectRoot.subdirectories.Perm
        (listedDirs entries) ∧
      (ScanProjectDirectory w path entries).state.projectRoot.subdirectories.length =
        (listedDirNames entries).length ∧
      KeysIncreasing (ScanProjectDirectory w path entries).state.projectRoot.subdirectories) ∧
    (FsEntry.quiet e = false →
      (ScanProjectDirectory w path (entries ++ e :: post)).state =
        (ScanProjectDirectory w path (entries ++ [e])).state ∧
      (ScanProjectDirectory w path (entries ++ e :: post)).state.projectRoot.files =
        listedFiles entries ∧
      ∃ what, (ScanProjectDirectory w path (entries ++ e :: post)).state.buildOutput =
        "Error scanning directory: " ++ what ++ "\n") := by
  have a1 := quiet_list_no_throw (DirectoryNode.mk (filename path) path [] []) entries hq
  have a4 : (BuildDirectoryTree (DirectoryNode.mk (filename path) path [] []) entries).1.files
      = listedFiles entries := by
    rw [walk_files entries _ hq]; rfl
  have hroot : (ScanProjectDirectory w path entries).state =
      { w.state with projectRoot :=
          (BuildDirectoryTree (DirectoryNode.mk (filename path) path [] []) entries).1 } := by
    rcases hb : BuildDirectoryTree (DirectoryNode.mk (filename path) path [] []) entries with
      ⟨tree, thrown⟩
    rw [hb] at a1
    simp only at a1
    subst a1
    simp only [ScanProjectDirectory, hb]
  refine ⟨by rw [hroot], by rw [hroot]; exact a4, ?_, ?_, ?_⟩
  · intro p
    rw [hroot]
    simp only
    rw [a4, mem_listedFiles, whitelisted_iff]
  · intro hnd
    obtain ⟨_, _, _, _, a5, a6⟩ := walk_spec entries
      (DirectoryNode.mk (filename path) path [] []) hq hnd
      (by intro p hp; simp [DirectoryNode.subdirectories] at hp)
      (by simp [KeysIncreasing, DirectoryNode.subdirectories])
    have a5' : (BuildDirectoryTree (DirectoryNode.mk (filename path) path [] [])
        entries).1.subdirectories.Perm (listedDirs entries) := a5
    rw [hroot]
    refine ⟨a5', ?_, a6⟩
    simp only
    rw [a5'.length_eq, ← listedDirs_keys, List.length_map]
  · intro he
    obtain ⟨b1, ⟨what, b2⟩, b3⟩ := walk_stops_at_throw
      (DirectoryNode.mk (filename path) path [] []) entries post e hq he
    have hscan : ∀ es : List FsEntry,
        (BuildDirectoryTree (DirectoryNode.mk (filename path) path [] []) es).2 = some what →
        (ScanProjectDirectory w path es).state =
          { w.state with
            projectRoot :=
              (BuildDirectoryTree (DirectoryNode.mk (filename path) path [] []) es).1
            buildOutput := "Error scanning directory: " ++ what ++ "\n" } := by
      intro es hes
      rcases hb : BuildDirectoryTree (DirectoryNode.mk (filename path) path [] []) es with
        ⟨tree, thrown⟩
      rw [hb] at hes
      simp only at hes
      subst hes
      simp only [ScanProjectDirectory, hb]
    have h1 := hscan (entries ++ e :: post) b2
    have h2 := hscan (entries ++ [e]) (by rw [← b1]; exact b2)
    refine ⟨?_, ?_, what, ?_⟩
    · rw [h1, h2, b1]
    · rw [h1]
      simp only
      rw [b3]
      rfl
    · rw [h1]

/-- C11 as amended, at `demoListing`, where `src` is enumerated before
`build`: the root lists `README.md` and `lib.h`, and its two children come
in key order; when an unreadable directory follows the listing, the file
enumerated after that directory is not in the node. -/
theorem scan_files_and_children_witness :
    FsEntry.allQuiet demoListing = true ∧
    (listedDirNames demoListing).Nodup ∧
    FsEntry.quiet (.dir "proj/locked" [.error "permission denied"]) = false ∧
    listedDirNames demoListing = ["src", "build"] ∧
    listedFiles demoListing = ["proj/README.md", "proj/lib.h"] ∧
    (ScanProjectDirectory (World.initial demoFs) "proj" demoListing).state.projectRoot.files =
      listedFiles demoListing ∧
    (ScanProjectDirectory (World.initial demoFs) "proj"
      demoListing).state.projectRoot.subdirectories.Perm (listedDirs demoListing) ∧
    KeysIncreasing (ScanProjectDirectory (World.initial demoFs) "proj"
      demoListing).state.projectRoot.subdirectories ∧
    (ScanProjectDirectory (World.initial demoFs) "proj"
      demoListing).state.projectRoot.subdirectories.map (fun p => (p.1, p.2.files)) =
      [("build", []), ("src", ["proj/src/main.cpp"])] ∧
    (ScanProjectDirectory (World.initial demoFs) "proj"
      (demoListing ++ .dir "proj/locked" [.error "permission denied"] ::
        [.file "proj/late.cpp"])).state.projectRoot.files = listedFiles demoListing :=
  have h := scan_files_and_children (World.initial demoFs) "proj" demoListing
    [.file "proj/late.cpp"] (.dir "proj/locked" [.error "permission denied"]) (by decide)
  ⟨by decide, by decide, by decide, by decide, by decide, h.2.1,
    (h.2.2.2.1 (by decide)).1, (h.2.2.2.1 (by decide)).2.2, by decide,
    (h.2.2.2.2 (by decide)).2.1⟩

/-- C12 fails as stated: scanning the scenario yields a root with two
subdirectories, `build` and `src`, not one; `src/main.cpp` is not a file of
the root but the only file of the child `src`, and `README.md` is the only
file of the root. -/
theorem scenario_one_subdirectory_counterexample :
    (ScanProjectDirectory (World.initial demoFs) "proj"
      scenarioListing).state.projectRoot.subdirectories.map (fun p => p.1) = ["build", "src"] ∧
    (ScanProjectDirectory (World.initial demoFs) "proj"
      scenarioListing).state.projectRoot.subdirectories.length ≠ 1 ∧
    (ScanProjectDirectory (World.initial demoFs) "proj"
      scenarioListing).state.projectRoot.files = ["proj/README.md"] ∧
    (ScanProjectDirectory (World.initial demoFs) "proj"
      scenarioListing).state.projectRoot.subdirectories.map (fun p => p.2.files) =
      [[], ["proj/src/main.cpp"]] := by
  decide

/-- C12 as amended: in whatever order the three entries of the scenario
are enumerated, the scan leaves the console as it was and yields the root
`proj` with two subdirectories in key order, `build` (no files, no
subdirectories) and `src` (whose only file is `src/main.cpp`), and with
`README.md` as its only file, included because `.md` is whitelisted. -/
theorem scenario_tree (w : World) (es : List FsEntry) (h : es.Perm scenarioListing) :
    (ScanProjectDirectory w "proj" es).state.projectRoot = scenarioTree ∧
    (ScanProjectDirectory w "proj" es).state.buildOutput = w.state.buildOutput ∧
    whitelisted (extension "proj/README.md") = true := by
  rw [← List.mem_permutations] at h
  simp [scenarioListing, List.permutations, List.permutationsAux_cons, List.permutationsAux2,
    List.permutationsAux_nil] at h
  rcases h with rfl | rfl | rfl | rfl | rfl | rfl <;> exact ⟨rfl, rfl, by decide⟩

/-- C12 as amended, at the order `build`, `README.md`, `src`. -/
theorem scenario_tree_witness :
    ([.dir "proj/build" [], .file "proj/README.md",
        .dir "proj/src" [.file "proj/src/main.cpp"]] : List FsEntry).Perm scenarioListing ∧
    (ScanProjectDirectory (World.initial demoFs) "proj"
      [.dir "proj/build" [], .file "proj/README.md",
        .dir "proj/src" [.file "proj/src/main.cpp"]]).state.projectRoot = scenarioTree :=
  have hp : ([.dir "proj/build" [], .file "proj/README.md",
      .dir "proj/src" [.file "proj/src/main.cpp"]] : List FsEntry).Perm scenarioListing :=
    (List.Perm.swap _ _ _).trans
      ((List.Perm.cons _ (List.Perm.swap _ _ _)).trans (List.Perm.swap _ _ _))
  ⟨hp, (scenario_tree (World.initial demoFs) _ hp).1⟩

/-! ## The dirty flag and the disk -/

theorem Save_ok (e : CustomTextEditor) (h : Host) (hp : e.mFilePath ≠ "")
    (hc : h.fs.canWrite e.mFilePath = true) :
    (e.Save h).2.1 = { e with mIsDirty := false, savedText := e.text } ∧
      (e.Save h).2.2.fs = h.fs.write e.mFilePath (h.fs.stored e.mFilePath e.text) := by
  unfold CustomTextEditor.Save
  simp [hp, hc]

theorem Save_refused (e : CustomTextEditor) (h : Host)
    (hf : e.mFilePath = "" ∨ h.fs.canWrite e.mFilePath = false) :
    (e.Save h).2.1 = e ∧ (e.Save h).2.2.fs = h.fs := by
  unfold CustomTextEditor.Save
  rcases hf with h1 | h1
  · simp [h1, Host.emit]
  · by_cases hp : e.mFilePath = ""
    · simp [hp, Host.emit]
    · simp [hp, h1, Host.emit]

theorem mem_set_nodup (l : List CustomTextEditor) (i : Nat) (a e x : CustomTextEditor)
    (hnd : (l.map (fun y => y.mFilePath)).Nodup) (he : l[i]? = some e)
    (hx : x ∈ l.set i a) : x = a ∨ (x ∈ l ∧ x.mFilePath ≠ e.mFilePath) := by
  induction l generalizing i with
  | nil => simp at he
  | cons y ys ih =>
    simp only [List.map_cons, List.nodup_cons] at hnd
    cases i with
    | zero =>
      simp at he
      subst he
      simp only [List.set_cons_zero, List.mem_cons] at hx
      rcases hx with h1 | h1
      · exact Or.inl h1
      · right
        refine ⟨List.mem_cons_of_mem _ h1, ?_⟩
        intro hp
        exact hnd.1 (List.mem_map.mpr ⟨x, h1, hp⟩)
    | succ j =>
      simp at he
      simp only [List.set_cons_succ, List.mem_cons] at hx
      rcases hx with h1 | h1
      · right
        subst h1
        refine ⟨List.mem_cons_self _ _, ?_⟩
        intro hp
        exact hnd.1 (List.mem_map.mpr ⟨e, List.getElem?_mem he, hp.symm⟩)
      · rcases ih j hnd.2 he h1 with h2 | ⟨h2, h3⟩
        · exact Or.inl h2
        · exact Or.inr ⟨List.mem_cons_of_mem _ h2, h3⟩

theorem saveAt_Settled (w : World) (i : Nat) (h : Settled w) : Settled (saveAt w i).2 := by
  obtain ⟨hF, hnd, hdisk⟩ := h
  cases he : w.state.editors[i]? with
  | none =>
    have : saveAt w i = (false, w) := by simp [saveAt, he]
    rw [this]
    exact ⟨hF, hnd, hdisk⟩
  | some e =>
    have hpaths := saveAt_paths w i
    rw [saveAt_eq w i e he] at hpaths ⊢
    by_cases hok : e.mFilePath ≠ "" ∧ w.host.fs.canWrite e.mFilePath = true
    · obtain ⟨s1, s2⟩ := Save_ok e w.host hok.1 hok.2
      refine ⟨?_, ?_, ?_⟩
      · intro p t
        simp only [s2, FileSystem.write]
        exact hF p t
      · rw [hpaths]; exact hnd
      · intro x hx
        simp only [s1, s2, hF] at hx ⊢
        rcases mem_set_nodup _ i _ e x hnd he hx with h1 | ⟨h1, h2⟩
        · subst h1
          simp [FileSystem.write]
        · simp only [FileSystem.write, h2, if_false]
          exact hdisk x h1
    · have hf : e.mFilePath = "" ∨ w.host.fs.canWrite e.mFilePath = false := by
        by_cases hp : e.mFilePath = ""
        · exact Or.inl hp
        · right
          by_cases hc : w.host.fs.canWrite e.mFilePath = true
          · exact absurd ⟨hp, hc⟩ hok
          · simpa using hc
      obtain ⟨s1, s2⟩ := Save_refused e w.host hf
      refine ⟨?_, ?_, ?_⟩
      · intro p t
        simp only [s2]
        exact hF p t
      · rw [hpaths]; exact hnd
      · intro x hx
        simp only [s1, s2, set_same _ i e he] at hx ⊢
        exact hdisk x hx
theorem set_keeps_DiskMatch (w : World) (i : Nat) (a e : CustomTextEditor)
    (he : w.state.editors[i]? = some e) (hp : a.mFilePath = e.mFilePath)
    (hs : a.savedText = e.savedText) (h : Settled w) :
    Settled { w with state := { w.state with editors := w.state.editors.set i a } } := by
  obtain ⟨hF, hnd, hdisk⟩ := h
  refine ⟨hF, ?_, ?_⟩
  · unfold openPaths at hnd ⊢
    rw [paths_set _ i a e he hp]
    exact hnd
  · intro x hx
    rcases List.mem_or_eq_of_mem_set hx with h1 | h1
    · exact hdisk x h1
    · subst h1
      show w.host.fs.read x.mFilePath = some x.savedText
      rw [hp, hs]
      exact hdisk e (List.getElem?_mem he)

theorem markDirty_Settled (w : World) (i : Nat) (h : Settled w) : Settled (markDirty w i) := by
  unfold markDirty
  cases he : w.state.editors[i]? with
  | none => exact h
  | some e => exact set_keeps_DiskMatch w i _ e he rfl rfl h

theorem editText_Settled (w : World) (i : Nat) (t : String) (h : Settled w) :
    Settled (editText w i t) := by
  unfold editText
  cases he : w.state.editors[i]? with
  | none => exact h
  | some e =>
    apply markDirty_Settled
    exact set_keeps_DiskMatch w i _ e he rfl rfl h

theorem erase_keeps_Settled (w : World) (i : Nat) (a : Int) (h : Settled w) :
    Settled { w with state := { w.state with
      editors := w.state.editors.eraseIdx i, activeEditorIndex := a } } := by
  obtain ⟨hF, hnd, hdisk⟩ := h
  refine ⟨hF, ?_, ?_⟩
  · unfold openPaths at hnd ⊢
    exact hnd.sublist ((List.eraseIdx_sublist _ i).map _)
  · intro x hx
    exact hdisk x (List.mem_of_mem_eraseIdx hx)

theorem closeTab_Settled (w : World) (i : Nat) (h : Settled w) : Settled (closeTab w i) := by
  unfold closeTab
  cases he : w.state.editors[i]? with
  | none => exact h
  | some e =>
    by_cases hd : e.mIsDirty = true
    · simp only [hd, if_true]
      exact erase_keeps_Settled _ i _ (saveAt_Settled w i h)
    · simp only [hd]
      exact erase_keeps_Settled _ i _ h

theorem tabItem_Settled (w : World) (i : Nat) (inp : TabInput) (h : Settled w) :
    Settled (tabItem w i inp) := by
  unfold tabItem
  have h1 : ∀ w0 : World, Settled w0 → Settled (if inp.closed then closeTab w0 i else w0) := by
    intro w0 h0
    split_ifs
    · exact closeTab_Settled w0 i h0
    · exact h0
  apply h1
  cases hs : inp.selected with
  | false => simpa using h
  | true =>
    cases he : inp.edit with
    | none => exact h
    | some t =>
      simp only [if_true]
      apply editText_Settled
      exact h

theorem tabLoop_Settled (n : Nat) (inputs : Nat → TabInput) (i : Nat) (w : World)
    (h : Settled w) : Settled (tabLoop n inputs i w) := by
  induction n generalizing inputs i w with
  | zero => exact h
  | succ n ih =>
    unfold tabLoop
    by_cases hi : i < w.state.editors.length
    · rw [if_pos hi]
      exact ih _ _ _ (tabItem_Settled w i _ h)
    · rw [if_neg hi]
      exact h

theorem saveAllDirty_Settled (n i : Nat) (w : World) (h : Settled w) :
    Settled (saveAllDirty n i w) := by
  induction n generalizing i w with
  | zero => exact h
  | succ n ih =>
    unfold saveAllDirty
    cases he : w.state.editors[i]? with
    | none => exact h
    | some e =>
      apply ih
      split_ifs
      · exact saveAt_Settled w i h
      · exact h

theorem openFile_Settled (w : World) (file : String) (h : Settled w) :
    Settled (openFile w file) := by
  obtain ⟨hF, hnd, hdisk⟩ := h
  unfold openFile
  cases hf : findOpen file w.state.editors 0 with
  | some i => exact ⟨hF, hnd, hdisk⟩
  | none =>
    cases hread : w.host.fs.read file with
    | none => exact ⟨hF, hnd, hdisk⟩
    | some str =>
      refine ⟨hF, ?_, ?_⟩
      · unfold openPaths at hnd ⊢
        simp only [List.map_append, List.map_cons, List.map_nil]
        rw [List.nodup_append]
        refine ⟨hnd, List.nodup_singleton _, ?_⟩
        intro p hp1 hp2
        simp only [List.mem_singleton] at hp2
        rw [hp2] at hp1
        obtain ⟨e, he, hpe⟩ := List.mem_map.mp hp1
        exact (findOpen_none file _ 0).mp hf e he
          (by simpa [CustomTextEditor.new, CustomTextEditor.SetText,
            CustomTextEditor.SetFilePath] using hpe)
      · intro x hx
        simp only [List.mem_append, List.mem_singleton] at hx
        rcases hx with h1 | h1
        · exact hdisk x h1
        · subst h1
          simpa [CustomTextEditor.new, CustomTextEditor.SetText,
            CustomTextEditor.SetFilePath] using hread
theorem BuildProject_host (w w1 : World) (proc : ProcResult)
    (hp : w.state.projectPath ≠ "") (h : BuildProject w proc = some w1) :
    w1.state.editors = (saveAllDirty w.state.editors.length 0 w).state.editors ∧
      (w1.host.fs.read = (saveAllDirty w.state.editors.length 0 w).host.fs.read ∨
        ∃ o rc after, proc = ProcResult.exited o rc after ∧ w1.host.fs = after) := by
  unfold BuildProject at h
  simp only [hp, if_false] at h
  split at h
  · simp at h
  · rename_i w3 hm
    have h3 : w3.state = (World.log (saveAllDirty w.state.editors.length 0 w)
        "Building project...\n").state ∧
        w3.host.fs.read = (saveAllDirty w.state.editors.length 0 w).host.fs.read := by
      split_ifs at hm <;> simp at hm <;> subst hm <;> exact ⟨rfl, rfl⟩
    cases proc with
    | spawnFailed =>
      simp at h
      subst h
      exact ⟨by simp [World.log, h3.1], Or.inl h3.2⟩
    | exited o rc a =>
      simp at h
      subst h
      exact ⟨by simp [World.log, h3.1], Or.inr ⟨o, rc, a, rfl, rfl⟩⟩

theorem Op_run_DiskMatch (op : Op) (w w1 : World) (hc : CalmStep op w)
    (hr : op.run w = some w1) (h : DiskMatch w) : DiskMatch w1 := by
  have hS : Settled w := ⟨hc.1, h⟩
  cases op with
  | openFile file =>
    simp [Op.run] at hr; subst hr; exact (openFile_Settled w file hS).2
  | selectTab i =>
    simp [Op.run] at hr
    obtain ⟨_, rfl⟩ := hr
    exact h
  | markDirty i =>
    simp [Op.run] at hr
    obtain ⟨_, rfl⟩ := hr
    exact (markDirty_Settled w i hS).2
  | editText i t =>
    simp [Op.run] at hr
    obtain ⟨_, rfl⟩ := hr
    exact (editText_Settled w i t hS).2
  | save =>
    simp [Op.run] at hr; subst hr
    unfold SaveCurrentFile
    split_ifs
    · exact (saveAt_Settled w _ hS).2
    · exact h
  | closeTab i =>
    simp [Op.run] at hr
    obtain ⟨_, rfl⟩ := hr
    exact (closeTab_Settled w i hS).2
  | build proc =>
    simp only [Op.run] at hr
    by_cases hp : w.state.projectPath = ""
    · unfold BuildProject at hr
      simp [hp] at hr
      subst hr
      exact h
    · obtain ⟨_, hnd, hdisk⟩ := saveAllDirty_Settled w.state.editors.length 0 w hS
      obtain ⟨e1, e2⟩ := BuildProject_host w w1 proc hp hr
      have hpaths : openPaths w1 = openPaths (saveAllDirty w.state.editors.length 0 w) := by
        simp only [openPaths, e1]
      refine ⟨by rw [hpaths]; exact hnd, ?_⟩
      intro x hx
      rw [e1] at hx
      rcases e2 with e2 | ⟨o, rc, after, rfl, e2⟩
      · rw [e2]
        exact hdisk x hx
      · rw [e2]
        have hmem : x.mFilePath ∈ openPaths w := by
          rw [← saveAllDirty_paths w.state.editors.length 0 w]
          exact List.mem_map.mpr ⟨x, hx, rfl⟩
        rw [hc.2 x.mFilePath hmem]
        exact hdisk x hx
  | frame inputs =>
    simp [Op.run] at hr; subst hr
    unfold RenderEditorTabs
    split_ifs
    · exact h
    · exact (tabLoop_Settled _ _ _ _ hS).2
  | openProject path entries =>
    simp [Op.run] at hr; subst hr
    obtain ⟨hnd, hdisk⟩ := h
    have he := (openProject_shape w path entries).1
    have hh : (openProject w path entries).host = w.host := by
      unfold openProject ScanProjectDirectory
      rcases hb : BuildDirectoryTree (DirectoryNode.mk (filename path) path [] []) entries with
        ⟨tree, _ | what⟩ <;> simp [hb]
    refine ⟨by simpa only [openPaths, he] using hnd, ?_⟩
    intro x hx
    rw [he] at hx
    rw [hh]
    exact hdisk x hx
  | clearConsole =>
    simp [Op.run] at hr; subst hr
    exact h

theorem CalmReachable_Reachable (w : World) (h : CalmReachable w) : Reachable w := by
  induction h with
  | init fs => exact Reachable.init fs
  | step op _ _ hr ih => exact Reachable.step op ih hr

theorem CalmReachable_DiskMatch (w : World) (h : CalmReachable w) : DiskMatch w := by
  induction h with
  | init fs =>
    refine ⟨by simp [openPaths, World.initial, AppState.initial], ?_⟩
    intro e he
    simp [World.initial, AppState.initial] at he
  | step op _ hc hr ih => exact Op_run_DiskMatch op _ _ hc hr ih

theorem Reachable_CleanMatch (w : World) (h : Reachable w) : CleanMatch w.state.editors := by
  induction h with
  | init fs => intro e he; simp [World.initial, AppState.initial] at he
  | step op _ hr ih => exact Op_run_CleanMatch op _ _ hr ih
/-- C6 fails as stated, in both directions.  After `src/main.cpp` is
opened, a character is typed in one frame and deleted in the next, the
buffer is dirty although its text equals what the disk holds.  After a
save on `fullFs`, where the write is cut short and `Save` does not notice,
the buffer is clean although its text differs from what the disk holds. -/
theorem dirty_iff_differs_counterexample :
    (Reachable demoTypedBack ∧
      demoTypedBack.state.editors =
        [{ text := "int main() {}", mFilePath := "src/main.cpp", mIsDirty := true,
           savedText := "int main() {}" }] ∧
      demoTypedBack.host.fs.read "src/main.cpp" = some "int main() {}" ∧
      ¬ (∀ e ∈ demoTypedBack.state.editors,
          (e.mIsDirty = true ↔ demoTypedBack.host.fs.read e.mFilePath ≠ some e.text))) ∧
    (Reachable (SaveCurrentFile demoEditedFull).2 ∧
      (SaveCurrentFile demoEditedFull).2.state.editors =
        [{ text := "int main() { return 0; }", mFilePath := "src/main.cpp", mIsDirty := false,
           savedText := "int main() { return 0; }" }] ∧
      (SaveCurrentFile demoEditedFull).2.host.fs.read "src/main.cpp" = some "int " ∧
      ¬ (∀ e ∈ (SaveCurrentFile demoEditedFull).2.state.editors,
          (e.mIsDirty = true ↔
            (SaveCurrentFile demoEditedFull).2.host.fs.read e.mFilePath ≠ some e.text))) :=
  ⟨⟨Reachable_runOps
      [.openFile "src/main.cpp", .frame (typeInFirstTab "int main() {}x"),
        .frame (typeInFirstTab "int main() {}")]
      (World.initial demoFs) demoTypedBack (Reachable.init demoFs) rfl,
    by decide, by decide, by decide⟩,
   ⟨Reachable_runOps
      [.openFile "src/main.cpp", .editText 0 "int main() { return 0; }", .save]
      (World.initial fullFs) (SaveCurrentFile demoEditedFull).2 (Reachable.init fullFs) rfl,
    by decide, by decide, by decide⟩⟩

/-- C6 as amended: in every state reached by operations during which the
host behaves (the writes of the saves complete, a build pipeline leaves
the files of the open buffers as it found them), the file under the path
of every open buffer holds the content that buffer last loaded or saved,
and a buffer whose dirty flag is false holds exactly that content, so that
its text is what the disk holds.  The flag is false right after a save
that returned true, the file then holding the text if the write completed,
and true after any text mutation, also one that restores the saved
content. -/
theorem clean_buffer_matches_disk (w : World) (h : CalmReachable w) :
    (∀ e ∈ w.state.editors,
      w.host.fs.read e.mFilePath = some e.savedText ∧
      (e.mIsDirty = false →
        e.text = e.savedText ∧ w.host.fs.read e.mFilePath = some e.text)) ∧
    (∀ (i : Nat) (e : CustomTextEditor), w.state.editors[i]? = some e →
      (saveAt w i).1 = true →
      (saveAt w i).2.state.editors[i]? =
        some { e with mIsDirty := false, savedText := e.text } ∧
      (w.host.fs.stored e.mFilePath e.text = e.text →
        (saveAt w i).2.host.fs.read e.mFilePath = some e.text)) ∧
    (∀ (i : Nat) (e : CustomTextEditor) (t : String), w.state.editors[i]? = some e →
      (editText w i t).state.editors[i]? = some { e with text := t, mIsDirty := true }) := by
  refine ⟨?_, ?_, ?_⟩
  · intro e he
    have hd := (CalmReachable_DiskMatch w h).2 e he
    refine ⟨hd, ?_⟩
    intro hc
    have ht := Reachable_CleanMatch w (CalmReachable_Reachable w h) e he hc
    exact ⟨ht, by rw [ht]; exact hd⟩
  · intro i e he hs
    have hi : i < w.state.editors.length := (List.getElem?_eq_some.mp he).1
    rw [saveAt_eq w i e he] at hs ⊢
    simp only at hs
    rw [Save_fst] at hs
    simp only [Bool.and_eq_true, decide_eq_true_eq] at hs
    obtain ⟨s1, s2⟩ := Save_ok e w.host hs.1 hs.2
    refine ⟨by simp [s1, hi], ?_⟩
    intro hst
    simp [s2, FileSystem.write, hst]
  · intro i e t he
    have hi : i < w.state.editors.length := (List.getElem?_eq_some.mp he).1
    rw [editText_eq w i t e he]
    simp [hi]

/-- C6 as amended, at `demoSaved`: its only buffer was edited and saved,
it is clean and the disk holds its text; typing again sets the flag, and
saving that clears it. -/
theorem clean_buffer_matches_disk_witness :
    CalmReachable demoSaved ∧
    demoSaved.state.editors =
      [{ text := "int main() { return 0; }", mFilePath := "src/main.cpp", mIsDirty := false,
         savedText := "int main() { return 0; }" }] ∧
    demoSaved.host.fs.read "src/main.cpp" = some "int main() { return 0; }" ∧
    (editText demoSaved 0 "int x;").state.editors[0]? =
      some { text := "int x;", mFilePath := "src/main.cpp", mIsDirty := true,
             savedText := "int main() { return 0; }" } ∧
    (saveAt demoEdited 0).2.state.editors[0]? =
      some { text := "int main() { return 0; }", mFilePath := "src/main.cpp",
             mIsDirty := false, savedText := "int main() { return 0; }" } :=
  have h0 : CalmReachable (World.initial demoFs) := CalmReachable.init demoFs
  have h1 : CalmReachable demoOne :=
    CalmReachable.step (.openFile "src/main.cpp") h0 ⟨fun _ _ => rfl, trivial⟩ rfl
  have h2 : CalmReachable demoEdited :=
    CalmReachable.step (.editText 0 "int main() { return 0; }") h1 ⟨fun _ _ => rfl, trivial⟩ rfl
  have h3 : CalmReachable demoSaved :=
    CalmReachable.step .save h2 ⟨fun _ _ => rfl, trivial⟩ rfl
  ⟨h3, by decide,
    (((clean_buffer_matches_disk demoSaved h3).1
      ⟨"int main() { return 0; }", "src/main.cpp", false, "int main() { return 0; }"⟩
      (by decide)).2 rfl).2,
    (clean_buffer_matches_disk demoSaved h3).2.2 0
      ⟨"int main() { return 0; }", "src/main.cpp", false, "int main() { return 0; }"⟩
      "int x;" (by decide),
    ((clean_buffer_matches_disk demoEdited h2).2.1 0
      ⟨"int main() { return 0; }", "src/main.cpp", true, "int main() {}"⟩
      (by decide) (by decide)).1⟩

end LightEdit
